import Mathlib

/-!
Verification development for the TronLink wallet core:
a shallow embedding of src/app/backgroundScript/wallet.js (the wallet state
machine and account directory) and of the confirmation handlers of the
background script (declineConfirmation / acceptConfirmation / closeDialog),
together with theorems settling the specification claims.

JavaScript objects keyed by strings are embedded as association lists with
JS-object semantics (insertion order, in-place update, append on new key).
External capabilities that are repository code outside src (lib/AccountHandler,
lib/Utils crypto and storage) are modelled from the spec, as marked on the
corresponding definitions.
-/

namespace TronLink

/-- WALLET_STATUS from lib/constants: UNINITIALIZED, LOCKED, UNLOCKED. -/
inductive WalletStatus
  | uninitialized
  | locked
  | unlocked
deriving DecidableEq, Repr

/-- One managed account record as stored in the wallet's accounts object.
The name field is an Option: none models both a missing name and the JS
value false that the code assigns on a name collision. -/
structure Account where
  publicKey : String
  privateKey : String
  name : Option String
  internal : Bool
  balance : Nat
  tokens : List (String × Nat)
  transactions : List Nat
deriving DecidableEq, Repr

/-! JS-object helpers: association lists with JavaScript object semantics. -/

/-- Lookup of obj[k]: the value at the first matching key. -/
def objGet (l : List (String × Account)) (k : String) : Option Account :=
  (l.find? (fun p => p.1 == k)).map Prod.snd

/-- hasOwnProperty check. -/
def objHasKey (l : List (String × Account)) (k : String) : Bool :=
  l.any (fun p => p.1 == k)

/-- Assignment obj[k] = v: replaces the entry in place if the key exists,
appends at the end otherwise (JS insertion-order semantics). -/
def objSet : List (String × Account) → String → Account → List (String × Account)
  | [], k, v => [(k, v)]
  | p :: rest, k, v =>
    if p.1 == k then (k, v) :: rest else p :: objSet rest k v

/-- delete obj[k]. -/
def objDelete (l : List (String × Account)) (k : String) : List (String × Account) :=
  l.filter (fun p => !(p.1 == k))

/-- Object.keys(obj). -/
def objKeys (l : List (String × Account)) : List String :=
  l.map Prod.fst

/-- Object.values(obj). -/
def objValues (l : List (String × Account)) : List Account :=
  l.map Prod.snd

/-- Keys of the accounts object are pairwise distinct, as they are for every
real JavaScript object. -/
def nodupKeys : List (String × Account) → Bool
  | [] => true
  | p :: rest => !(objHasKey rest p.1) && nodupKeys rest

/-- JS truthiness of the password slot: false and the empty string are falsy. -/
def jsStrTruthy : Option String → Bool
  | none => false
  | some s => s != ""

/-! JS string helpers. A JS string is embedded through its character list so
that substring(0, 32) and trim() are explicit list operations. -/

/-- Whitespace test used by trim. -/
def isWs (c : Char) : Bool := c.isWhitespace

/-- trim(): drop whitespace from both ends. -/
def trimList (l : List Char) : List Char :=
  ((l.dropWhile isWs).reverse.dropWhile isWs).reverse

/-- JS s.trim(). -/
def jsTrim (s : String) : String := String.mk (trimList s.toList)

/-- JS s.toString().substring(0, 32).trim(), the name normalisation used by
_importRaw and createAccount. -/
def jsSubstrTrim (s : String) : String := String.mk (trimList (s.toList.take 32))

/-- The child account name built by _importMnemonic:
(name.toString().trim() + " " + (accounts.length + 1)).substring(0, 32). -/
def mnemonicChildName (n : String) (count : Nat) : String :=
  String.mk ((jsTrim n ++ " " ++ Nat.repr count).toList.take 32)

/-- A requested display name is stored trimmed: no leading and no trailing
whitespace. -/
def TrimmedStr (s : String) : Prop :=
  (∀ c, s.toList.head? = some c → isWs c = false) ∧
  (∀ c, s.toList.reverse.head? = some c → isWs c = false)

/-- Checks whether some existing account already carries the candidate name
(Object.values(accounts).some(account => account.name === accountName)). -/
def nameTaken (accounts : List (String × Account)) (nm : String) : Bool :=
  (objValues accounts).any (fun a => a.name == some nm)

/-- Modelled from the spec: the Crypto Provider capability
deriveAccountAtIndex(seedPhrase, index) -> identity and private key.
lib/AccountHandler is repository code outside src; derivation is modelled as
a deterministic injective function of seed phrase and index, with the cached
fields empty as for a freshly exported account. -/
def getAccountAtIndex (mnemonic : String) (index : Nat) : Account :=
  { publicKey := mnemonic ++ "-addr-" ++ String.mk (List.replicate index 'x')
    privateKey := mnemonic ++ "-key-" ++ String.mk (List.replicate index 'x')
    name := none
    internal := false
    balance := 0
    tokens := []
    transactions := [] }

/-- Modelled from the spec: import of a single external private key
(AccountHandler with ACCOUNT_TYPE.RAW, then export()); the identity is
derived deterministically from the key. -/
def accountFromPrivateKey (privateKey : String) : Account :=
  { publicKey := "addr-of-" ++ privateKey
    privateKey := privateKey
    name := none
    internal := false
    balance := 0
    tokens := []
    transactions := [] }

/-- The plaintext structure protected by encrypted storage; exactly the
object serialised by _saveStorage. -/
structure StoragePayload where
  accounts : List (String × Account)
  mnemonic : Option String
  currentAccount : Option String
  internalAccounts : Nat
deriving DecidableEq, Repr

/-- Modelled from the spec: an encrypted blob from Utils.encrypt. A cipher
value remembers the payload and the password it was encrypted under; corrupt
stands for any undecryptable blob. -/
inductive Ciphertext
  | cipher (payload : StoragePayload) (password : String)
  | corrupt
deriving DecidableEq, Repr

/-- Modelled from the spec: Utils.decrypt followed by JSON.parse. Fails
(throws, embedded as none) on a wrong password or a corrupted blob; on the
matching password the payload round-trips losslessly. -/
def decrypt (c : Ciphertext) (password : String) : Option StoragePayload :=
  match c with
  | Ciphertext.cipher payload pw => if password = pw then some payload else none
  | Ciphertext.corrupt => none

/-- The in-memory state of the Wallet class: its private fields plus the
signing key handed to tronWeb.setPrivateKey. -/
structure WalletState where
  walletStatus : WalletStatus
  accounts : List (String × Account)
  internalAccounts : Nat
  rootAccount : Option String
  mnemonic : Option String
  password : Option String
  currentAccount : Option String
  encryptedStorage : Option Ciphertext
  tronPrivateKey : Option String
deriving DecidableEq, Repr

/-- The object serialised by _saveStorage. -/
def walletPayload (w : WalletState) : StoragePayload :=
  { accounts := w.accounts
    mnemonic := w.mnemonic
    currentAccount := w.currentAccount
    internalAccounts := w.internalAccounts }

/-- A freshly constructed Wallet with no stored blob: every field starts
false or empty and the status stays UNINITIALIZED. -/
def initialWallet : WalletState :=
  { walletStatus := WalletStatus.uninitialized
    accounts := []
    internalAccounts := 0
    rootAccount := none
    mnemonic := none
    password := none
    currentAccount := none
    encryptedStorage := none
    tronPrivateKey := none }

/-- _saveStorage(password = false): throws when neither the stored password
nor the argument is truthy; otherwise encrypts the current payload under the
stored password if truthy, else under the argument, records the password,
and persists the blob. -/
def saveStorage (w : WalletState) (password : Option String) :
    Except String WalletState :=
  if jsStrTruthy w.password = false ∧ jsStrTruthy password = false then
    Except.error "Storage requires a password for encryption"
  else
    let pw := if jsStrTruthy w.password = true then w.password.getD "" else password.getD ""
    Except.ok { w with
      encryptedStorage := some (Ciphertext.cipher (walletPayload w) pw)
      password := some pw }

/-- The spread in addAccount: cached fields default to empty because exported
accounts carry none of them. -/
def extendAccount (a : Account) : Account :=
  { a with tokens := [], transactions := [], balance := 0 }

/-- addAccount(account): stores the extended account under its public key and
saves storage. -/
def addAccount (w : WalletState) (account : Account) : Except String WalletState :=
  saveStorage
    { w with accounts := objSet w.accounts account.publicKey (extendAccount account) }
    none

/-- getFullAccount(): the account under the current key, or fall back to the
first key, saving storage. The returned Option is the possibly-undefined JS
result. -/
def getFullAccount (w : WalletState) : Except String (WalletState × Option Account) :=
  match w.currentAccount.bind (fun k => objGet w.accounts k) with
  | some a => Except.ok (w, some a)
  | none =>
    let cur := (objKeys w.accounts).head?
    let w1 := { w with currentAccount := cur }
    match saveStorage w1 none with
    | Except.error e => Except.error e
    | Except.ok w2 => Except.ok (w2, cur.bind (fun k => objGet w2.accounts k))

/-- unlockWallet(password): the try block decrypts and rehydrates, reads the
full account's private key and flips the status; any failure is caught and
reported as false, with every mutation made before the failure kept. -/
def unlockWallet (w : WalletState) (password : String) : WalletState × Bool :=
  match w.encryptedStorage with
  | none => (w, false)
  | some cs =>
    match decrypt cs password with
    | none => (w, false)
    | some payload =>
      let w1 := { w with
        rootAccount := payload.mnemonic
        accounts := payload.accounts
        mnemonic := payload.mnemonic
        currentAccount := payload.currentAccount
        password := some password
        internalAccounts := payload.internalAccounts }
      match getFullAccount w1 with
      | Except.error _ => (w1, false)
      | Except.ok (w2, none) => (w2, false)
      | Except.ok (w2, some acc) =>
        ({ w2 with
            tronPrivateKey := some acc.privateKey
            walletStatus := WalletStatus.unlocked }, true)

/-- setupWallet(password): guarded against re-initialisation and a falsy
password; derives the index-0 account from a fresh seed, names it
Default Account, marks it internal, stores it and unlocks. The fresh seed
from AccountHandler.generateAccount is passed as a parameter. -/
def setupWallet (freshMnemonic : String) (w : WalletState) (password : String) :
    Except String (WalletState × Account) :=
  if w.walletStatus ≠ WalletStatus.uninitialized then
    Except.error "Wallet cannot be initialized multiple times"
  else if password = "" then
    Except.error "Wallet cannot be initialized without a password"
  else
    let base := getAccountAtIndex freshMnemonic 0
    let defaultAccount := { base with name := some "Default Account", internal := true }
    let w1 := { w with
      rootAccount := some freshMnemonic
      mnemonic := some freshMnemonic
      password := some password
      internalAccounts := 1 }
    match addAccount w1 defaultAccount with
    | Except.error e => Except.error e
    | Except.ok w2 =>
      let r := unlockWallet w2 password
      Except.ok (r.1, defaultAccount)

/-- createAccount(name = ""): derives at index internalAccounts + 1 from the
root seed, applies the name-collision policy, marks the account internal,
increments the internal-account counter and registers the account. -/
def createAccount (w : WalletState) (name : String) :
    Except String (WalletState × Account) :=
  match w.rootAccount with
  | none => Except.error "TypeError: getAccountAtIndex of false"
  | some m =>
    let account := getAccountAtIndex m (w.internalAccounts + 1)
    let account :=
      if name = "" then account
      else
        let accountName := jsSubstrTrim name
        if nameTaken w.accounts accountName = true then { account with name := none }
        else { account with name := some accountName }
    let account := { account with internal := true }
    let w1 := { w with internalAccounts := w.internalAccounts + 1 }
    match addAccount w1 account with
    | Except.error e => Except.error e
    | Except.ok w2 => Except.ok (w2, account)

/-- _importRaw(privateKey, name): builds the account from the key, applies
the name-collision policy when the name is truthy, and registers it. -/
def rawImport (w : WalletState) (privateKey : String) (name : Option String) :
    Except String (WalletState × Account) :=
  let account := accountFromPrivateKey privateKey
  let account :=
    match name with
    | none => account
    | some n =>
      if n = "" then account
      else
        let accountName := jsSubstrTrim n
        if nameTaken w.accounts accountName = true then { account with name := none }
        else { account with name := some accountName }
  match addAccount w account with
  | Except.error e => Except.error e
  | Except.ok w1 => Except.ok (w1, account)

/-- The while loop of _importMnemonic. txs is the Chain Client capability
getTransactionsRelated, queried at each derived public key; existing is the
wallet's accounts object, unchanged during the scan. Fuel bounds the number
of loop iterations; none means the loop would still be running. -/
def mnemonicScan (txs : String → List Nat) (existing : List (String × Account))
    (m : String) (name : Option String) :
    Nat → Nat → Nat → List Account → Option (List Account)
  | 0, _accountIndex, checked, acc =>
    if checked < 20 then none else some acc
  | Nat.succ fuel, accountIndex, checked, acc =>
    if checked < 20 then
      let child := getAccountAtIndex m accountIndex
      let transactions := txs child.publicKey
      if transactions.length = 0 then
        mnemonicScan txs existing m name fuel (accountIndex + 1) (checked + 1) acc
      else if objHasKey existing child.publicKey = true then
        mnemonicScan txs existing m name fuel (accountIndex + 1) 0 acc
      else
        let child2 :=
          match name with
          | none => child
          | some n =>
            if n = "" then child
            else
              let accountName := mnemonicChildName n (acc.length + 1)
              if nameTaken existing accountName = true then { child with name := none }
              else { child with name := some accountName }
        mnemonicScan txs existing m name fuel (accountIndex + 1) 0 (acc ++ [child2])
    else some acc

/-- accounts.forEach(account => this.addAccount(account)). -/
def addAll (w : WalletState) : List Account → Except String WalletState
  | [] => Except.ok w
  | a :: rest =>
    match addAccount w a with
    | Except.error e => Except.error e
    | Except.ok w1 => addAll w1 rest

/-- _importMnemonic(mnemonic, name): run the gap scan from index 0 with an
empty consecutive-empty counter, then register every kept account. -/
def mnemonicImport (txs : String → List Nat) (w : WalletState) (m : String)
    (name : Option String) (fuel : Nat) :
    Option (Except String (WalletState × List Account)) :=
  match mnemonicScan txs w.accounts m name fuel 0 0 [] with
  | none => none
  | some accounts =>
    some (match addAll w accounts with
          | Except.error e => Except.error e
          | Except.ok w1 => Except.ok (w1, accounts))

/-- ACCOUNT_TYPE from lib/constants, with a catch-all for invalid values. -/
inductive AccountType
  | raw
  | mnemonic
  | other (tag : String)
deriving DecidableEq, Repr

/-- The result of importAccount: one account for a raw key, a list for a
seed phrase. -/
inductive ImportResult
  | single (a : Account)
  | many (l : List Account)
deriving DecidableEq, Repr

/-- importAccount(accountType, importData, name): dispatch on the account
type; an invalid type throws. -/
def accountImport (txs : String → List Nat) (fuel : Nat) (w : WalletState)
    (accountType : AccountType) (importData : String) (name : Option String) :
    Option (Except String (WalletState × ImportResult)) :=
  match accountType with
  | AccountType.raw =>
    some (match rawImport w importData name with
          | Except.error e => Except.error e
          | Except.ok p => Except.ok (p.1, ImportResult.single p.2))
  | AccountType.mnemonic =>
    match mnemonicImport txs w importData name fuel with
    | none => none
    | some (Except.error e) => some (Except.error e)
    | some (Except.ok p) => some (Except.ok (p.1, ImportResult.many p.2))
  | AccountType.other _ => some (Except.error "Invalid ACCOUNT_TYPE supplied")

/-- selectAccount(publicKey): no-op on an unknown key; otherwise set the
current account, re-point the signing key and save storage. -/
def selectAccount (w : WalletState) (publicKey : String) : Except String WalletState :=
  if objHasKey w.accounts publicKey = true then
    let w1 := { w with currentAccount := some publicKey }
    match getFullAccount w1 with
    | Except.error e => Except.error e
    | Except.ok (_, none) => Except.error "TypeError: privateKey of undefined"
    | Except.ok (w2, some acc) =>
      saveStorage { w2 with tronPrivateKey := some acc.privateKey } none
  else Except.ok w

/-- deleteAccount(publicKey): no-op on an unknown key or the sole remaining
account; otherwise remove the entry and either fall back through
selectAccount (which saves) when the deleted account was selected, or save
directly. When the directory somehow became empty selectAccount receives an
absent key and is a no-op, exactly as selectAccount(undefined) in JS. -/
def deleteAccount (w : WalletState) (publicKey : String) : Except String WalletState :=
  if objHasKey w.accounts publicKey = false then Except.ok w
  else if (objKeys w.accounts).length = 1 then Except.ok w
  else
    let w1 := { w with accounts := objDelete w.accounts publicKey }
    if w1.currentAccount = some publicKey then
      match (objKeys w1.accounts).head? with
      | some k => selectAccount w1 k
      | none => Except.ok w1
    else saveStorage w1 none

/-- getAccount(address = currentAccount): false unless unlocked; fall back
to the first key when the address is unknown, re-pointing the signing key
and saving. -/
def getAccount (w : WalletState) (address : Option String) :
    Except String (WalletState × Option Account) :=
  if w.walletStatus ≠ WalletStatus.unlocked then Except.ok (w, none)
  else
    let addr := match address with
      | some a => some a
      | none => w.currentAccount
    match addr.bind (fun k => objGet w.accounts k) with
    | some a => Except.ok (w, some a)
    | none =>
      let cur := (objKeys w.accounts).head?
      let w1 := { w with currentAccount := cur }
      match getFullAccount w1 with
      | Except.error e => Except.error e
      | Except.ok (_, none) => Except.error "TypeError: privateKey of undefined"
      | Except.ok (w2, some acc) =>
        match saveStorage { w2 with tronPrivateKey := some acc.privateKey } none with
        | Except.error e => Except.error e
        | Except.ok w3 =>
          Except.ok (w3, w3.currentAccount.bind (fun k => objGet w3.accounts k))

/-- The account data returned by the Chain Client for one address:
trx.getAccount. -/
structure ChainAccountInfo where
  balance : Nat
  asset : List (String × Nat)
deriving DecidableEq, Repr

/-- The Chain Client capability consumed by updateAccount. -/
structure ChainEnv where
  accountInfo : String → ChainAccountInfo
  relatedTransactions : String → List Nat

/-- Modelled from the spec: Utils.convertTransactions, the advisory local
view of the fetched history; lib/utils is repository code outside src. -/
def convertTransactions (l : List Nat) (_address : String) : List Nat := l

/-- updateAccount(address, save): replace the cached balance, positive-value
tokens and converted transactions of the record. The source would create a
partial phantom record for an unknown address; only calls on a present
address are modelled (the batch update and the reachable popup flows only
pass present addresses). -/
def updateAccount (env : ChainEnv) (w : WalletState) (address : String)
    (save : Bool) : Except String WalletState :=
  match objGet w.accounts address with
  | none => Except.error "unmodelled: updateAccount on an absent address"
  | some old =>
    let info := env.accountInfo address
    let tokens := info.asset.filter (fun p => 0 < p.2)
    let updated := { old with
      transactions := convertTransactions (env.relatedTransactions address) address
      balance := info.balance
      tokens := tokens }
    let w1 := { w with accounts := objSet w.accounts address updated }
    if save = true then saveStorage w1 none else Except.ok w1

/-- The loop of updateAccounts over the keys of the accounts object. -/
def updateAccountsGo (env : ChainEnv) (w : WalletState) :
    List String → Except String WalletState
  | [] => Except.ok w
  | k :: ks =>
    match updateAccount env w k false with
    | Except.error e => Except.error e
    | Except.ok w1 => updateAccountsGo env w1 ks

/-- updateAccounts(): update every account without saving, then save once. -/
def updateAccounts (env : ChainEnv) (w : WalletState) : Except String WalletState :=
  match updateAccountsGo env w (objKeys w.accounts) with
  | Except.error e => Except.error e
  | Except.ok w1 => saveStorage w1 none

/-- One completed surface-visible wallet operation, as dispatched by the
background-script handlers. Operations that threw are not steps: their
partial states are noted on the respective definitions. -/
inductive Step : WalletState → WalletState → Prop
  | create (w w' : WalletState) (name : String) (a : Account) :
      createAccount w name = Except.ok (w', a) → Step w w'
  | importR (w w' : WalletState) (pk : String) (name : Option String) (a : Account) :
      rawImport w pk name = Except.ok (w', a) → Step w w'
  | importM (w w' : WalletState) (txs : String → List Nat) (m : String)
      (name : Option String) (fuel : Nat) (l : List Account) :
      mnemonicImport txs w m name fuel = some (Except.ok (w', l)) → Step w w'
  | select (w w' : WalletState) (pk : String) :
      selectAccount w pk = Except.ok w' → Step w w'
  | delete (w w' : WalletState) (pk : String) :
      deleteAccount w pk = Except.ok w' → Step w w'
  | unlock (w w' : WalletState) (pw : String) (b : Bool) :
      unlockWallet w pw = (w', b) → Step w w'
  | getAcc (w w' : WalletState) (addr : Option String) (r : Option Account) :
      getAccount w addr = Except.ok (w', r) → Step w w'
  | getFull (w w' : WalletState) (r : Option Account) :
      getFullAccount w = Except.ok (w', r) → Step w w'
  | update (w w' : WalletState) (env : ChainEnv) (addr : String) (sv : Bool) :
      updateAccount env w addr sv = Except.ok w' → Step w w'
  | updateAll (w w' : WalletState) (env : ChainEnv) :
      updateAccounts env w = Except.ok w' → Step w w'

/-- Wallet states reachable through completed surface operations. -/
def Reachable : WalletState → WalletState → Prop :=
  Relation.ReflTransGen Step

/-- The invariant carried by every wallet state reachable after setup: the
directory is non-empty with distinct keys, a truthy password is known, and
any stored cipher protects a non-empty directory under a non-empty
password. -/
def storageOK : Option Ciphertext → Prop
  | some (Ciphertext.cipher p pw) =>
    p.accounts ≠ [] ∧ nodupKeys p.accounts = true ∧ pw ≠ ""
  | _ => True

/-- The full reachability invariant. -/
def Inv (w : WalletState) : Prop :=
  w.accounts ≠ [] ∧ nodupKeys w.accounts = true ∧ jsStrTruthy w.password = true ∧
    storageOK w.encryptedStorage

/-- A concrete account used by witnesses. -/
def exAccount : Account :=
  { publicKey := "pk1"
    privateKey := "sk1"
    name := some "Main"
    internal := true
    balance := 0
    tokens := []
    transactions := [] }

/-- A second concrete account used by witnesses. -/
def exAccount2 : Account :=
  { publicKey := "pk2"
    privateKey := "sk2"
    name := some "Backup"
    internal := false
    balance := 0
    tokens := []
    transactions := [] }

/-- A concrete unlocked wallet whose persisted blob matches its in-memory
payload, as after any completed mutation. -/
def exWallet : WalletState :=
  { walletStatus := WalletStatus.unlocked
    accounts := [("pk1", exAccount)]
    internalAccounts := 1
    rootAccount := some "seed"
    mnemonic := some "seed"
    password := some "pw"
    currentAccount := some "pk1"
    encryptedStorage := some (Ciphertext.cipher
      { accounts := [("pk1", exAccount)]
        mnemonic := some "seed"
        currentAccount := some "pk1"
        internalAccounts := 1 } "pw")
    tronPrivateKey := some "sk1" }

/-- A concrete unlocked wallet with two accounts, the first selected. -/
def exWallet2 : WalletState :=
  { walletStatus := WalletStatus.unlocked
    accounts := [("pk1", exAccount), ("pk2", exAccount2)]
    internalAccounts := 1
    rootAccount := some "seed"
    mnemonic := some "seed"
    password := some "pw"
    currentAccount := some "pk1"
    encryptedStorage := some (Ciphertext.cipher
      { accounts := [("pk1", exAccount), ("pk2", exAccount2)]
        mnemonic := some "seed"
        currentAccount := some "pk1"
        internalAccounts := 1 } "pw")
    tronPrivateKey := some "sk1" }

/-! The confirmation subsystem of the background script. -/

/-- CONFIRMATION_TYPE from lib/constants, with a catch-all constructor for
any value outside the dispatch table. -/
inductive ConfirmationType
  | sendTron
  | sendAsset
  | issueAsset
  | createSmartContract
  | triggerSmartContract
  | signSmartContract
  | freeze
  | unfreeze
  | other (tag : String)
deriving DecidableEq, Repr

/-- The only aspects of a JS value the acceptance check reads: its own
truthiness and the truthiness of its result property (undefined, hence
falsy, when absent). -/
structure JsValue where
  truthy : Bool
  resultTruthy : Bool
deriving DecidableEq, Repr

/-- The JS literal false returned by the stubbed wallet operations: falsy,
and reading .result on it yields undefined without throwing. -/
def jsFalse : JsValue := { truthy := false, resultTruthy := false }

/-- A broadcast receipt from the Chain Client (trx.broadcast). Per the Chain
Client contract it carries a result flag and no response or rpcResponse
property, so spreading it into the output object assigns neither. -/
structure Receipt where
  result : Bool
deriving DecidableEq, Repr

/-- The fields of the output object that the post-dispatch success check
reads. For the two spread kinds both stay unassigned. -/
structure Output where
  response : Option JsValue
  rpcResponse : Option JsValue
deriving DecidableEq, Repr

/-- What the success check can throw: a TypeError from reading .result of an
undefined rpcResponse, or the explicit invalid-output Error. -/
inductive JsError
  | typeError
  | invalidOutput
deriving DecidableEq, Repr

/-- Truthiness of a possibly-undefined value. -/
def jsTruthyOpt : Option JsValue → Bool
  | none => false
  | some v => v.truthy

/-- The check after the dispatch switch:
if (!output.response && !output.rpcResponse.result) throw. Reading .result
throws a TypeError when rpcResponse is undefined. -/
def checkOutput (o : Output) : Except JsError Unit :=
  if jsTruthyOpt o.response = true then Except.ok ()
  else
    match o.rpcResponse with
    | none => Except.error JsError.typeError
    | some v =>
      if v.resultTruthy = true then Except.ok () else Except.error JsError.invalidOutput

/-- Outcomes of the wallet calls made by the dispatch switch. The stubbed
operations return the literal false but may still throw before returning
(for example inside getFullAccount); triggerSmartContract resolves to a
broadcast receipt; signSmartContract resolves to the signed result. -/
structure DispatchEnv where
  sendResult : Except Unit Unit
  sendAssetResult : Except Unit Unit
  issueAssetResult : Except Unit Unit
  freezeResult : Except Unit Unit
  unfreezeResult : Except Unit Unit
  createResult : Except Unit Unit
  triggerResult : Except Unit Receipt
  signResult : Except Unit JsValue
deriving Repr

/-- The switch of the acceptConfirmation handler: which output object each
kind builds. none is the default case (unknown kind, nothing dispatched);
some (error) is a wallet call that threw. The five stub kinds assign the
returned false to output.rpcResponse; the two contract kinds spread their
result over the output, assigning neither checked field; the sign kind
assigns output.response. -/
def buildOutput (env : DispatchEnv) : ConfirmationType → Option (Except Unit Output)
  | ConfirmationType.sendTron =>
    some (env.sendResult.map (fun _ => Output.mk none (some jsFalse)))
  | ConfirmationType.sendAsset =>
    some (env.sendAssetResult.map (fun _ => Output.mk none (some jsFalse)))
  | ConfirmationType.issueAsset =>
    some (env.issueAssetResult.map (fun _ => Output.mk none (some jsFalse)))
  | ConfirmationType.createSmartContract =>
    some (env.createResult.map (fun _ => Output.mk none none))
  | ConfirmationType.triggerSmartContract =>
    some (env.triggerResult.map (fun _ => Output.mk none none))
  | ConfirmationType.signSmartContract =>
    some (env.signResult.map (fun v => Output.mk (some v) none))
  | ConfirmationType.freeze =>
    some (env.freezeResult.map (fun _ => Output.mk none (some jsFalse)))
  | ConfirmationType.unfreeze =>
    some (env.unfreezeResult.map (fun _ => Output.mk none (some jsFalse)))
  | ConfirmationType.other _ => none

/-- Dispatch plus the success check: none for an unknown kind, error when
the try block throws (from the call or from the check), ok with the output
otherwise. -/
def acceptResult (env : DispatchEnv) (c : ConfirmationType) :
    Option (Except Unit Output) :=
  match buildOutput env c with
  | none => none
  | some (Except.error e) => some (Except.error e)
  | some (Except.ok o) =>
    match checkOutput o with
    | Except.error _ => some (Except.error ())
    | Except.ok _ => some (Except.ok o)

/-- Whether acceptance of this kind succeeds under this environment. -/
def isSuccess (env : DispatchEnv) (c : ConfirmationType) : Bool :=
  match acceptResult env c with
  | some (Except.ok _) => true
  | _ => false

/-- The module state of the background script: the pendingConfirmations
registry and whether an authorization dialog is open. -/
structure ConfState where
  pending : List (String × ConfirmationType)
  dialog : Bool
deriving DecidableEq, Repr

/-- Registry lookup by identifier. -/
def lookupConf (l : List (String × ConfirmationType)) (id : String) :
    Option ConfirmationType :=
  (l.find? (fun p => p.1 == id)).map Prod.snd

/-- delete pendingConfirmations[id]. -/
def removeConf (l : List (String × ConfirmationType)) (id : String) :
    List (String × ConfirmationType) :=
  l.filter (fun p => !(p.1 == id))

/-- The observable actions of one handler run, in program order: a warning
log, a wallet dispatch for a kind, the original caller's continuation being
rejected or resolved, the handler's own channel continuation, and a dialog
close request. -/
inductive Event
  | logWarn
  | walletCall (c : ConfirmationType)
  | callerReject (err : String)
  | callerResolve (o : Output)
  | handlerReject (err : Option String)
  | handlerResolve
  | dialogClose
deriving DecidableEq, Repr

/-- The dialog-close part of an event list. -/
def closeEvents (b : Bool) : List Event :=
  if b then [Event.dialogClose] else []

/-- closeDialog(): return early while confirmations remain or no dialog is
open; otherwise close it. The Bool reports whether a close was requested. -/
def closeDialogFn (s : ConfState) : ConfState × Bool :=
  if s.pending.length ≠ 0 then (s, false)
  else if s.dialog = false then (s, false)
  else ({ s with dialog := false }, true)

/-- The declineConfirmation handler: warn and stop on an absent identifier;
otherwise reject the caller with denied, remove the entry, run closeDialog
and resolve the channel request. -/
def declineConfirmation (s : ConfState) (id : String) : ConfState × List Event :=
  match lookupConf s.pending id with
  | none => (s, [Event.logWarn])
  | some _ =>
    let s1 := { s with pending := removeConf s.pending id }
    let r := closeDialogFn s1
    (r.1, [Event.callerReject "denied"] ++ closeEvents r.2 ++ [Event.handlerResolve])

/-- The acceptConfirmation handler: warn and stop on an absent identifier.
For an unknown kind, reject the caller with the descriptive error, remove
the entry, reject the channel request and run closeDialog, without any
wallet call. When the dispatched call or the success check throws, reject
the caller with the generic error, remove the entry, run closeDialog and
reject the channel request. On success resolve the caller with the output,
remove the entry, run closeDialog and resolve the channel request. -/
def acceptConfirmation (env : DispatchEnv) (s : ConfState) (id : String) :
    ConfState × List Event :=
  match lookupConf s.pending id with
  | none => (s, [Event.logWarn])
  | some c =>
    match acceptResult env c with
    | none =>
      let s1 := { s with pending := removeConf s.pending id }
      let r := closeDialogFn s1
      (r.1, [Event.logWarn, Event.callerReject "Unknown transaction type",
             Event.handlerReject none] ++ closeEvents r.2)
    | some (Except.error _) =>
      let s1 := { s with pending := removeConf s.pending id }
      let r := closeDialogFn s1
      (r.1, [Event.walletCall c,
             Event.callerReject "Failed to build valid transaction"]
        ++ closeEvents r.2
        ++ [Event.handlerReject (some "Failed to build valid transaction")])
    | some (Except.ok o) =>
      let s1 := { s with pending := removeConf s.pending id }
      let r := closeDialogFn s1
      (r.1, [Event.walletCall c, Event.callerResolve o]
        ++ closeEvents r.2 ++ [Event.handlerResolve])

/-- The events of a run that touch the original caller's continuation. -/
def callerEvents (evs : List Event) : List Event :=
  evs.filter (fun e =>
    match e with
    | Event.callerReject _ => true
    | Event.callerResolve _ => true
    | _ => false)

/-- Concrete registry state with one pending confirmation of an unknown kind. -/
def c2State : ConfState :=
  { pending := [("id1", ConfirmationType.other "bogus")], dialog := true }

/-- Concrete registry state with one pending send confirmation. -/
def c8State : ConfState :=
  { pending := [("a", ConfirmationType.sendTron)], dialog := true }

/-- Concrete registry state with one pending trigger-contract confirmation. -/
def c10State : ConfState :=
  { pending := [("t", ConfirmationType.triggerSmartContract)], dialog := false }

/-- Concrete dispatch environment where every wallet call completes. -/
def happyEnv : DispatchEnv :=
  { sendResult := Except.ok ()
    sendAssetResult := Except.ok ()
    issueAssetResult := Except.ok ()
    freezeResult := Except.ok ()
    unfreezeResult := Except.ok ()
    createResult := Except.ok ()
    triggerResult := Except.ok { result := true }
    signResult := Except.ok { truthy := true, resultTruthy := true } }

/-- A concrete transaction-history environment for the gap-scan scenario:
exactly the first three derived accounts of the seed m have history. -/
def c6Txs : String → List Nat := fun pk =>
  if pk = (getAccountAtIndex "m" 0).publicKey ∨
      pk = (getAccountAtIndex "m" 1).publicKey ∨
      pk = (getAccountAtIndex "m" 2).publicKey then [1] else []

/-- A concrete wallet whose directory already holds the seed-m index-1
account, for the skip-already-present import scenario. -/
def exWalletM1 : WalletState :=
  { walletStatus := WalletStatus.unlocked
    accounts := [((getAccountAtIndex "m" 1).publicKey, exAccount)]
    internalAccounts := 1
    rootAccount := some "seed"
    mnemonic := some "seed"
    password := some "pw"
    currentAccount := some (getAccountAtIndex "m" 1).publicKey
    encryptedStorage := none
    tronPrivateKey := none }

/-! Helper lemmas about the JS-object embedding. -/

theorem objGet_cons_hit (p : String × Account) (l : List (String × Account))
    (k : String) (h : (p.1 == k) = true) : objGet (p :: l) k = some p.2 := by
  simp [objGet, List.find?, h]

theorem objGet_cons_miss (p : String × Account) (l : List (String × Account))
    (k : String) (h : (p.1 == k) = false) : objGet (p :: l) k = objGet l k := by
  simp [objGet, List.find?, h]

theorem objHasKey_cons (p : String × Account) (l : List (String × Account))
    (k : String) : objHasKey (p :: l) k = ((p.1 == k) || objHasKey l k) := by
  simp [objHasKey]

theorem objSet_cons_hit (p : String × Account) (l : List (String × Account))
    (k : String) (v : Account) (h : (p.1 == k) = true) :
    objSet (p :: l) k v = (k, v) :: l := by
  simp [objSet, h]

theorem objSet_cons_miss (p : String × Account) (l : List (String × Account))
    (k : String) (v : Account) (h : (p.1 == k) = false) :
    objSet (p :: l) k v = p :: objSet l k v := by
  simp [objSet, h]

theorem objDelete_cons_hit (p : String × Account) (l : List (String × Account))
    (k : String) (h : (p.1 == k) = true) : objDelete (p :: l) k = objDelete l k := by
  simp [objDelete, h]

theorem objDelete_cons_miss (p : String × Account) (l : List (String × Account))
    (k : String) (h : (p.1 == k) = false) :
    objDelete (p :: l) k = p :: objDelete l k := by
  simp [objDelete, h]

theorem nodupKeys_cons (p : String × Account) (l : List (String × Account)) :
    nodupKeys (p :: l) = true ↔ objHasKey l p.1 = false ∧ nodupKeys l = true := by
  simp [nodupKeys]

theorem objGet_objSet_self (l : List (String × Account)) (k : String) (v : Account) :
    objGet (objSet l k v) k = some v := by
  induction l with
  | nil => simp [objSet, objGet]
  | cons p rest ih =>
    cases hp : p.1 == k with
    | true =>
      rw [objSet_cons_hit p rest k v hp]
      rw [objGet_cons_hit (k, v) rest k (by simp)]
    | false =>
      rw [objSet_cons_miss p rest k v hp]
      rw [objGet_cons_miss p (objSet rest k v) k hp]
      exact ih

theorem objGet_objSet_ne (l : List (String × Account)) (k k' : String) (v : Account)
    (h : k' ≠ k) : objGet (objSet l k v) k' = objGet l k' := by
  have hkk : (k == k') = false := beq_false_of_ne (Ne.symm h)
  induction l with
  | nil =>
    show objGet [(k, v)] k' = objGet [] k'
    rw [objGet_cons_miss (k, v) [] k' hkk]
  | cons p rest ih =>
    cases hp : p.1 == k with
    | true =>
      have hpk : p.1 = k := eq_of_beq hp
      have hpk' : (p.1 == k') = false := by rw [hpk]; exact hkk
      rw [objSet_cons_hit p rest k v hp]
      rw [objGet_cons_miss (k, v) rest k' hkk]
      rw [objGet_cons_miss p rest k' hpk']
    | false =>
      cases hq : p.1 == k' with
      | true =>
        rw [objSet_cons_miss p rest k v hp]
        rw [objGet_cons_hit p (objSet rest k v) k' hq]
        rw [objGet_cons_hit p rest k' hq]
      | false =>
        rw [objSet_cons_miss p rest k v hp]
        rw [objGet_cons_miss p (objSet rest k v) k' hq]
        rw [objGet_cons_miss p rest k' hq]
        exact ih

theorem objHasKey_eq_isSome (l : List (String × Account)) (k : String) :
    objHasKey l k = (objGet l k).isSome := by
  induction l with
  | nil => simp [objHasKey, objGet]
  | cons p rest ih =>
    cases hp : p.1 == k with
    | true =>
      rw [objHasKey_cons, objGet_cons_hit p rest k hp, hp]
      rfl
    | false =>
      rw [objHasKey_cons, objGet_cons_miss p rest k hp, hp]
      simpa using ih

theorem objGet_some_of_hasKey (l : List (String × Account)) (k : String)
    (h : objHasKey l k = true) : ∃ a, objGet l k = some a := by
  rw [objHasKey_eq_isSome] at h
  cases hg : objGet l k with
  | none => rw [hg] at h; simp at h
  | some a => exact ⟨a, rfl⟩

theorem objHasKey_of_objGet_some (l : List (String × Account)) (k : String)
    (a : Account) (h : objGet l k = some a) : objHasKey l k = true := by
  rw [objHasKey_eq_isSome, h]
  rfl

theorem objHasKey_objSet (l : List (String × Account)) (k x : String) (v : Account) :
    objHasKey (objSet l k v) x = ((x == k) || objHasKey l x) := by
  by_cases hx : x = k
  · subst hx
    rw [objHasKey_eq_isSome, objGet_objSet_self]
    simp
  · rw [objHasKey_eq_isSome, objGet_objSet_ne l k x v hx, beq_false_of_ne hx,
      objHasKey_eq_isSome]
    simp

theorem nodupKeys_objSet (l : List (String × Account)) (k : String) (v : Account)
    (h : nodupKeys l = true) : nodupKeys (objSet l k v) = true := by
  induction l with
  | nil => simp [objSet, nodupKeys, objHasKey]
  | cons p rest ih =>
    rcases (nodupKeys_cons p rest).mp h with ⟨h1, h2⟩
    cases hp : p.1 == k with
    | true =>
      rw [objSet_cons_hit p rest k v hp]
      refine (nodupKeys_cons (k, v) rest).mpr ⟨?_, h2⟩
      rw [← eq_of_beq hp]
      exact h1
    | false =>
      rw [objSet_cons_miss p rest k v hp]
      refine (nodupKeys_cons p (objSet rest k v)).mpr ⟨?_, ih h2⟩
      rw [objHasKey_objSet, hp, h1]
      simp

theorem objSet_ne_nil (l : List (String × Account)) (k : String) (v : Account) :
    objSet l k v ≠ [] := by
  cases l with
  | nil => simp [objSet]
  | cons p rest =>
    cases hp : p.1 == k with
    | true => rw [objSet_cons_hit p rest k v hp]; simp
    | false => rw [objSet_cons_miss p rest k v hp]; simp

theorem objHasKey_objDelete (l : List (String × Account)) (k x : String) :
    objHasKey (objDelete l k) x = (objHasKey l x && !(x == k)) := by
  induction l with
  | nil => simp [objDelete, objHasKey]
  | cons p rest ih =>
    cases hp : p.1 == k with
    | true =>
      rw [objDelete_cons_hit p rest k hp, ih, objHasKey_cons]
      by_cases hx : x = k
      · subst hx
        simp
      · have hpx : (p.1 == x) = false :=
          beq_false_of_ne (by rw [eq_of_beq hp]; exact fun he => hx he.symm)
        rw [hpx]
        simp
    | false =>
      rw [objDelete_cons_miss p rest k hp, objHasKey_cons, objHasKey_cons, ih]
      cases hpx : p.1 == x with
      | true =>
        have hxk : (x == k) = false :=
          beq_false_of_ne (by rw [← eq_of_beq hpx]; exact ne_of_beq_false hp)
        rw [hxk]
        simp
      | false => simp

theorem objGet_objDelete_ne (l : List (String × Account)) (k k' : String)
    (h : k' ≠ k) : objGet (objDelete l k) k' = objGet l k' := by
  induction l with
  | nil => simp [objDelete]
  | cons p rest ih =>
    cases hp : p.1 == k with
    | true =>
      have hpk' : (p.1 == k') = false :=
        beq_false_of_ne (by rw [eq_of_beq hp]; exact fun he => h he.symm)
      rw [objDelete_cons_hit p rest k hp, ih, objGet_cons_miss p rest k' hpk']
    | false =>
      cases hq : p.1 == k' with
      | true =>
        rw [objDelete_cons_miss p rest k hp]
        rw [objGet_cons_hit p (objDelete rest k) k' hq, objGet_cons_hit p rest k' hq]
      | false =>
        rw [objDelete_cons_miss p rest k hp]
        rw [objGet_cons_miss p (objDelete rest k) k' hq, objGet_cons_miss p rest k' hq]
        exact ih

theorem nodupKeys_objDelete (l : List (String × Account)) (k : String)
    (h : nodupKeys l = true) : nodupKeys (objDelete l k) = true := by
  induction l with
  | nil => simp [objDelete, nodupKeys]
  | cons p rest ih =>
    rcases (nodupKeys_cons p rest).mp h with ⟨h1, h2⟩
    cases hp : p.1 == k with
    | true =>
      rw [objDelete_cons_hit p rest k hp]
      exact ih h2
    | false =>
      rw [objDelete_cons_miss p rest k hp]
      refine (nodupKeys_cons p (objDelete rest k)).mpr ⟨?_, ih h2⟩
      rw [objHasKey_objDelete, h1]
      simp

theorem objDelete_eq_self (l : List (String × Account)) (k : String)
    (h : objHasKey l k = false) : objDelete l k = l := by
  induction l with
  | nil => simp [objDelete]
  | cons p rest ih =>
    rw [objHasKey_cons] at h
    rcases (by simpa using h : (p.1 == k) = false ∧ objHasKey rest k = false) with ⟨h1, h2⟩
    rw [objDelete_cons_miss p rest k h1, ih h2]

theorem objDelete_length (l : List (String × Account)) (k : String)
    (hnd : nodupKeys l = true) (hk : objHasKey l k = true) :
    (objDelete l k).length + 1 = l.length := by
  induction l with
  | nil => simp [objHasKey] at hk
  | cons p rest ih =>
    rcases (nodupKeys_cons p rest).mp hnd with ⟨h1, h2⟩
    cases hp : p.1 == k with
    | true =>
      have hnk : objHasKey rest k = false := by rw [← eq_of_beq hp]; exact h1
      rw [objDelete_cons_hit p rest k hp, objDelete_eq_self rest k hnk]
      simp
    | false =>
      have hk2 : objHasKey rest k = true := by
        rw [objHasKey_cons, hp] at hk
        simpa using hk
      rw [objDelete_cons_miss p rest k hp]
      simp only [List.length_cons]
      rw [← ih h2 hk2]

theorem objKeys_length (l : List (String × Account)) :
    (objKeys l).length = l.length := by
  simp [objKeys]

theorem objKeys_head_hasKey (l : List (String × Account)) (k : String)
    (h : (objKeys l).head? = some k) : objHasKey l k = true := by
  cases l with
  | nil => simp [objKeys] at h
  | cons p rest =>
    have hp : p.1 = k := by simpa [objKeys] using h
    rw [objHasKey_cons, hp]
    simp

theorem jsStrTruthy_some (s : String) : jsStrTruthy (some s) = true ↔ s ≠ "" := by
  simp [jsStrTruthy]

/-! Helper lemmas about the confirmation registry and the handlers. -/

theorem callerEvents_append (a b : List Event) :
    callerEvents (a ++ b) = callerEvents a ++ callerEvents b := by
  simp [callerEvents]

theorem callerEvents_closeEvents (b : Bool) : callerEvents (closeEvents b) = [] := by
  cases b <;> simp [closeEvents, callerEvents]

theorem lookupConf_removeConf (l : List (String × ConfirmationType)) (id : String) :
    lookupConf (removeConf l id) id = none := by
  have h : (removeConf l id).find? (fun p => p.1 == id) = none := by
    rw [List.find?_eq_none]
    intro x hx
    have := (List.mem_filter.mp hx).2
    simpa using this
  simp [lookupConf, h]

theorem closeDialogFn_nonempty (s : ConfState) (h : s.pending ≠ []) :
    closeDialogFn s = (s, false) := by
  have hl : s.pending.length ≠ 0 := by
    simpa [List.length_eq_zero] using h
  simp [closeDialogFn, hl]

theorem closeDialogFn_empty_open (s : ConfState) (h : s.pending = [])
    (hd : s.dialog = true) :
    closeDialogFn s = ({ s with dialog := false }, true) := by
  simp [closeDialogFn, h, hd]

theorem dialogClose_not_mem_closeEvents_false :
    Event.dialogClose ∉ closeEvents false := by
  simp [closeEvents]

theorem mem_closeEvents (b : Bool) : Event.dialogClose ∈ closeEvents b ↔ b = true := by
  cases b <;> simp [closeEvents]

theorem closeDialogFn_pending (t : ConfState) : (closeDialogFn t).1.pending = t.pending := by
  unfold closeDialogFn
  split_ifs <;> rfl

theorem closeDialogFn_empty_closed (t : ConfState) (hp : t.pending = [])
    (hd : t.dialog = false) : closeDialogFn t = (t, false) := by
  simp [closeDialogFn, hp, hd]

/-- After accepting an existing entry, the registry is the old registry with
that entry removed, whatever the dispatch outcome was. -/
theorem accept_pending (env : DispatchEnv) (s : ConfState) (id : String)
    (c : ConfirmationType) (hmem : lookupConf s.pending id = some c) :
    (acceptConfirmation env s id).1.pending = removeConf s.pending id := by
  simp only [acceptConfirmation, hmem]
  cases hres : acceptResult env c with
  | none => exact closeDialogFn_pending _
  | some r =>
    cases r with
    | error e => exact closeDialogFn_pending _
    | ok o => exact closeDialogFn_pending _

theorem decline_pending (s : ConfState) (id : String) (c : ConfirmationType)
    (hmem : lookupConf s.pending id = some c) :
    (declineConfirmation s id).1.pending = removeConf s.pending id := by
  simp only [declineConfirmation, hmem]
  exact closeDialogFn_pending _

/-- The end state of an acceptance run is exactly what closeDialog produced. -/
theorem accept_state (env : DispatchEnv) (s : ConfState) (id : String)
    (c : ConfirmationType) (hmem : lookupConf s.pending id = some c) :
    (acceptConfirmation env s id).1 =
      (closeDialogFn { s with pending := removeConf s.pending id }).1 := by
  simp only [acceptConfirmation, hmem]
  cases hres : acceptResult env c with
  | none => rfl
  | some r =>
    cases r with
    | error e => rfl
    | ok o => rfl

theorem decline_state (s : ConfState) (id : String) (c : ConfirmationType)
    (hmem : lookupConf s.pending id = some c) :
    (declineConfirmation s id).1 =
      (closeDialogFn { s with pending := removeConf s.pending id }).1 := by
  simp only [declineConfirmation, hmem]

/-- A close request appears in an acceptance run exactly when closeDialog
reported one. -/
theorem accept_dialogClose_iff (env : DispatchEnv) (s : ConfState) (id : String)
    (c : ConfirmationType) (hmem : lookupConf s.pending id = some c) :
    (Event.dialogClose ∈ (acceptConfirmation env s id).2) ↔
      (closeDialogFn { s with pending := removeConf s.pending id }).2 = true := by
  simp only [acceptConfirmation, hmem]
  cases hres : acceptResult env c with
  | none => simp [mem_closeEvents]
  | some r =>
    cases r with
    | error e => simp [mem_closeEvents]
    | ok o => simp [mem_closeEvents]

theorem decline_dialogClose_iff (s : ConfState) (id : String) (c : ConfirmationType)
    (hmem : lookupConf s.pending id = some c) :
    (Event.dialogClose ∈ (declineConfirmation s id).2) ↔
      (closeDialogFn { s with pending := removeConf s.pending id }).2 = true := by
  simp only [declineConfirmation, hmem]
  simp [mem_closeEvents]

/-- Shared shape of the acceptance run when the entry exists and the
dispatched execution fails: the caller is rejected exactly once with the
generic message and the entry is removed. -/
theorem accept_execFailure (env : DispatchEnv) (s : ConfState) (id : String)
    (c : ConfirmationType) (e : Unit)
    (hmem : lookupConf s.pending id = some c)
    (herr : acceptResult env c = some (Except.error e)) :
    callerEvents (acceptConfirmation env s id).2 =
      [Event.callerReject "Failed to build valid transaction"] ∧
    lookupConf (acceptConfirmation env s id).1.pending id = none := by
  constructor
  · simp only [acceptConfirmation, hmem, herr]
    rw [callerEvents_append, callerEvents_append, callerEvents_closeEvents]
    simp [callerEvents]
  · rw [accept_pending env s id c hmem]
    exact lookupConf_removeConf _ _

/-- C2: when acceptance of a pending confirmation fails — the dispatched
operation throws, the success check rejects or throws on the result, or the
kind is unknown — the original caller's continuation is rejected exactly
once, with the generic failure message for execution failures and the
descriptive unknown-kind message (without any wallet dispatch) for unknown
kinds, and the entry is removed from the registry in every failure path. -/
theorem c2_accept_failure_rejects_once (env : DispatchEnv) (s : ConfState)
    (id : String) (c : ConfirmationType)
    (hmem : lookupConf s.pending id = some c)
    (hfail : isSuccess env c = false) :
    callerEvents (acceptConfirmation env s id).2 =
      [Event.callerReject
        (if (acceptResult env c).isNone = true then "Unknown transaction type"
         else "Failed to build valid transaction")] ∧
    lookupConf (acceptConfirmation env s id).1.pending id = none ∧
    ((acceptResult env c).isNone = true →
      ∀ k, Event.walletCall k ∉ (acceptConfirmation env s id).2) := by
  cases hres : acceptResult env c with
  | none =>
    refine ⟨?_, ?_, ?_⟩
    · simp only [acceptConfirmation, hmem, hres]
      rw [callerEvents_append, callerEvents_closeEvents]
      simp [callerEvents]
    · rw [accept_pending env s id c hmem]
      exact lookupConf_removeConf _ _
    · intro _ k
      simp only [acceptConfirmation, hmem, hres]
      rcases hb : (closeDialogFn { s with pending := removeConf s.pending id }).2 with _ | _ <;>
        simp [closeEvents]
  | some r =>
    cases r with
    | error e =>
      have h := accept_execFailure env s id c e hmem hres
      refine ⟨?_, h.2, ?_⟩
      · rw [h.1]; simp [hres]
      · intro habs
        simp [hres] at habs
    | ok o =>
      exfalso
      rw [isSuccess, hres] at hfail
      simp at hfail

/-- C3: accept and decline on an identifier absent from the registry only
log a warning: no continuation fires, no entry is removed, and the state is
returned unchanged, so an already-resolved identifier can never be resolved
again. -/
theorem c3_absent_id_noop (env : DispatchEnv) (s : ConfState) (id : String)
    (h : lookupConf s.pending id = none) :
    acceptConfirmation env s id = (s, [Event.logWarn]) ∧
    declineConfirmation s id = (s, [Event.logWarn]) := by
  constructor
  · simp [acceptConfirmation, h]
  · simp [declineConfirmation, h]

/-- C8: every resolution of an existing confirmation removes exactly that
entry; if the registry is left empty and a dialog is open the dialog is
closed, and if the registry is non-empty after the resolution the dialog is
left exactly as it was, with no close request emitted. -/
theorem c8_dialog_close_on_empty (env : DispatchEnv) (s : ConfState)
    (id : String) (c : ConfirmationType)
    (hmem : lookupConf s.pending id = some c) :
    (acceptConfirmation env s id).1.pending = removeConf s.pending id ∧
    (declineConfirmation s id).1.pending = removeConf s.pending id ∧
    (removeConf s.pending id = [] → s.dialog = true →
      (acceptConfirmation env s id).1.dialog = false ∧
      Event.dialogClose ∈ (acceptConfirmation env s id).2 ∧
      (declineConfirmation s id).1.dialog = false ∧
      Event.dialogClose ∈ (declineConfirmation s id).2) ∧
    (removeConf s.pending id ≠ [] →
      (acceptConfirmation env s id).1.dialog = s.dialog ∧
      Event.dialogClose ∉ (acceptConfirmation env s id).2 ∧
      (declineConfirmation s id).1.dialog = s.dialog ∧
      Event.dialogClose ∉ (declineConfirmation s id).2) := by
  refine ⟨accept_pending env s id c hmem, decline_pending s id c hmem, ?_, ?_⟩
  · intro hp hd
    have hclose := closeDialogFn_empty_open { s with pending := removeConf s.pending id }
      (by simpa using hp) (by simpa using hd)
    refine ⟨?_, ?_, ?_, ?_⟩
    · rw [accept_state env s id c hmem, hclose]
    · rw [accept_dialogClose_iff env s id c hmem, hclose]
    · rw [decline_state s id c hmem, hclose]
    · rw [decline_dialogClose_iff s id c hmem, hclose]
  · intro hp
    have hclose := closeDialogFn_nonempty { s with pending := removeConf s.pending id }
      (by simpa using hp)
    refine ⟨?_, ?_, ?_, ?_⟩
    · rw [accept_state env s id c hmem, hclose]
    · rw [accept_dialogClose_iff env s id c hmem, hclose]
      simp
    · rw [decline_state s id c hmem, hclose]
    · rw [decline_dialogClose_iff s id c hmem, hclose]
      simp

/-- C10: the success check reads output.rpcResponse.result, but the
create-contract and trigger-contract kinds spread their result into the
output object and never assign rpcResponse, so the check throws a TypeError
and the caller is always rejected with the generic failure message, even
when the wallet call itself completed. -/
theorem c10_contract_kinds_always_fail (env : DispatchEnv) (s : ConfState)
    (id : String) (r : Receipt)
    (htr : env.triggerResult = Except.ok r)
    (hcr : env.createResult = Except.ok ()) :
    buildOutput env ConfirmationType.triggerSmartContract =
      some (Except.ok { response := none, rpcResponse := none }) ∧
    buildOutput env ConfirmationType.createSmartContract =
      some (Except.ok { response := none, rpcResponse := none }) ∧
    checkOutput { response := none, rpcResponse := none } =
      Except.error JsError.typeError ∧
    (lookupConf s.pending id = some ConfirmationType.triggerSmartContract →
      callerEvents (acceptConfirmation env s id).2 =
        [Event.callerReject "Failed to build valid transaction"] ∧
      lookupConf (acceptConfirmation env s id).1.pending id = none) ∧
    (lookupConf s.pending id = some ConfirmationType.createSmartContract →
      callerEvents (acceptConfirmation env s id).2 =
        [Event.callerReject "Failed to build valid transaction"] ∧
      lookupConf (acceptConfirmation env s id).1.pending id = none) := by
  have hb1 : buildOutput env ConfirmationType.triggerSmartContract =
      some (Except.ok { response := none, rpcResponse := none }) := by
    simp [buildOutput, htr, Except.map]
  have hb2 : buildOutput env ConfirmationType.createSmartContract =
      some (Except.ok { response := none, rpcResponse := none }) := by
    simp [buildOutput, hcr, Except.map]
  have hchk : checkOutput { response := none, rpcResponse := none } =
      Except.error JsError.typeError := by
    simp [checkOutput, jsTruthyOpt]
  have ha1 : acceptResult env ConfirmationType.triggerSmartContract =
      some (Except.error ()) := by
    simp [acceptResult, hb1, hchk]
  have ha2 : acceptResult env ConfirmationType.createSmartContract =
      some (Except.error ()) := by
    simp [acceptResult, hb2, hchk]
  exact ⟨hb1, hb2, hchk,
    fun hmem => accept_execFailure env s id _ () hmem ha1,
    fun hmem => accept_execFailure env s id _ () hmem ha2⟩

/-- Witness for C2 at a concrete unknown-kind confirmation. -/
theorem c2_witness :
    callerEvents (acceptConfirmation happyEnv c2State "id1").2 =
      [Event.callerReject "Unknown transaction type"] ∧
    lookupConf (acceptConfirmation happyEnv c2State "id1").1.pending "id1" = none ∧
    ((acceptResult happyEnv (ConfirmationType.other "bogus")).isNone = true →
      ∀ k, Event.walletCall k ∉ (acceptConfirmation happyEnv c2State "id1").2) :=
  c2_accept_failure_rejects_once happyEnv c2State "id1"
    (ConfirmationType.other "bogus") (by decide) (by decide)

/-- Witness for C3 at a concrete absent identifier. -/
theorem c3_witness :
    acceptConfirmation happyEnv { pending := [], dialog := false } "x" =
      ({ pending := [], dialog := false }, [Event.logWarn]) ∧
    declineConfirmation { pending := [], dialog := false } "x" =
      ({ pending := [], dialog := false }, [Event.logWarn]) :=
  c3_absent_id_noop happyEnv { pending := [], dialog := false } "x" (by decide)

/-- Witness for C8 at a concrete sole pending confirmation with an open
dialog. -/
theorem c8_witness :
    (acceptConfirmation happyEnv c8State "a").1.pending = removeConf c8State.pending "a" ∧
    (declineConfirmation c8State "a").1.pending = removeConf c8State.pending "a" ∧
    (removeConf c8State.pending "a" = [] → c8State.dialog = true →
      (acceptConfirmation happyEnv c8State "a").1.dialog = false ∧
      Event.dialogClose ∈ (acceptConfirmation happyEnv c8State "a").2 ∧
      (declineConfirmation c8State "a").1.dialog = false ∧
      Event.dialogClose ∈ (declineConfirmation c8State "a").2) ∧
    (removeConf c8State.pending "a" ≠ [] →
      (acceptConfirmation happyEnv c8State "a").1.dialog = c8State.dialog ∧
      Event.dialogClose ∉ (acceptConfirmation happyEnv c8State "a").2 ∧
      (declineConfirmation c8State "a").1.dialog = c8State.dialog ∧
      Event.dialogClose ∉ (declineConfirmation c8State "a").2) :=
  c8_dialog_close_on_empty happyEnv c8State "a" ConfirmationType.sendTron (by decide)

/-- Witness for C10 at a concrete trigger-contract confirmation whose
broadcast succeeded. -/
theorem c10_witness :
    buildOutput happyEnv ConfirmationType.triggerSmartContract =
      some (Except.ok { response := none, rpcResponse := none }) ∧
    buildOutput happyEnv ConfirmationType.createSmartContract =
      some (Except.ok { response := none, rpcResponse := none }) ∧
    checkOutput { response := none, rpcResponse := none } =
      Except.error JsError.typeError ∧
    (lookupConf c10State.pending "t" = some ConfirmationType.triggerSmartContract →
      callerEvents (acceptConfirmation happyEnv c10State "t").2 =
        [Event.callerReject "Failed to build valid transaction"] ∧
      lookupConf (acceptConfirmation happyEnv c10State "t").1.pending "t" = none) ∧
    (lookupConf c10State.pending "t" = some ConfirmationType.createSmartContract →
      callerEvents (acceptConfirmation happyEnv c10State "t").2 =
        [Event.callerReject "Failed to build valid transaction"] ∧
      lookupConf (acceptConfirmation happyEnv c10State "t").1.pending "t" = none) :=
  c10_contract_kinds_always_fail happyEnv c10State "t" { result := true } rfl rfl

/-! Helper lemmas about the wallet state machine. -/

theorem saveStorage_ok (w : WalletState) (p : Option String) (w' : WalletState)
    (h : saveStorage w p = Except.ok w') :
    ∃ pw, pw ≠ "" ∧
      w' = { w with
        encryptedStorage := some (Ciphertext.cipher (walletPayload w) pw)
        password := some pw } := by
  unfold saveStorage at h
  by_cases hc : jsStrTruthy w.password = false ∧ jsStrTruthy p = false
  · rw [if_pos hc] at h
    exact absurd h (by simp)
  · rw [if_neg hc] at h
    simp only [Except.ok.injEq] at h
    refine ⟨if jsStrTruthy w.password = true then w.password.getD "" else p.getD "",
      ?_, h.symm⟩
    by_cases ht : jsStrTruthy w.password = true
    · rw [if_pos ht]
      cases hw : w.password with
      | none => rw [hw] at ht; simp [jsStrTruthy] at ht
      | some s =>
        rw [hw] at ht
        simpa using (jsStrTruthy_some s).mp ht
    · have hwf : jsStrTruthy w.password = false := by
        cases hb : jsStrTruthy w.password
        · rfl
        · exact absurd hb ht
      have hpt : jsStrTruthy p = true := by
        cases hb : jsStrTruthy p
        · exact absurd ⟨hwf, hb⟩ hc
        · rfl
      rw [if_neg ht]
      cases hp2 : p with
      | none => rw [hp2] at hpt; simp [jsStrTruthy] at hpt
      | some s =>
        rw [hp2] at hpt
        simpa using (jsStrTruthy_some s).mp hpt

theorem saveStorage_of_some (w : WalletState) (p : Option String) (s : String)
    (hw : w.password = some s) (hs : s ≠ "") :
    saveStorage w p = Except.ok { w with
      encryptedStorage := some (Ciphertext.cipher (walletPayload w) s)
      password := some s } := by
  have ht : jsStrTruthy w.password = true := by
    rw [hw]
    exact (jsStrTruthy_some s).mpr hs
  unfold saveStorage
  rw [if_neg (by simp [ht]), if_pos ht, hw]
  simp

theorem saveStorage_fields (w : WalletState) (p : Option String) (w' : WalletState)
    (h : saveStorage w p = Except.ok w') :
    w'.accounts = w.accounts ∧ w'.walletStatus = w.walletStatus ∧
    w'.currentAccount = w.currentAccount ∧ w'.internalAccounts = w.internalAccounts ∧
    w'.mnemonic = w.mnemonic ∧ w'.rootAccount = w.rootAccount ∧
    jsStrTruthy w'.password = true := by
  rcases saveStorage_ok w p w' h with ⟨pw, hpw, rfl⟩
  exact ⟨rfl, rfl, rfl, rfl, rfl, rfl, (jsStrTruthy_some pw).mpr hpw⟩

theorem getFullAccount_hit (w : WalletState) (acc : Account)
    (h : w.currentAccount.bind (fun k => objGet w.accounts k) = some acc) :
    getFullAccount w = Except.ok (w, some acc) := by
  unfold getFullAccount
  rw [h]

theorem getFullAccount_status (w w' : WalletState) (r : Option Account)
    (h : getFullAccount w = Except.ok (w', r)) :
    w'.walletStatus = w.walletStatus ∧ w'.accounts = w.accounts := by
  unfold getFullAccount at h
  split at h
  · simp only [Except.ok.injEq, Prod.mk.injEq] at h
    rw [← h.1]
    exact ⟨rfl, rfl⟩
  · dsimp only at h
    split at h
    · exact absurd h (by simp)
    · rename_i w2 hs
      simp only [Except.ok.injEq, Prod.mk.injEq] at h
      rcases saveStorage_fields _ _ _ hs with ⟨ha, hst, _⟩
      rw [← h.1]
      exact ⟨hst, ha⟩

/-- Every branch of unlockWallet either reports success or leaves the wallet
status untouched. -/
theorem unlock_success_or_status (w : WalletState) (pw : String) :
    (unlockWallet w pw).2 = true ∨
      (unlockWallet w pw).1.walletStatus = w.walletStatus := by
  unfold unlockWallet
  split
  · exact Or.inr rfl
  · split
    · exact Or.inr rfl
    · dsimp only
      split
      · exact Or.inr rfl
      · rename_i w2 hs
        exact Or.inr (getFullAccount_status _ _ _ hs).1
      · exact Or.inl rfl

/-- C9: selecting the already-selected identity leaves the directory and the
selected identity unchanged and re-encrypts a payload identical to the one
already persisted. -/
theorem c9_selectAccount_idempotent (w : WalletState) (pk : String) (acc : Account)
    (pw : String)
    (hget : objGet w.accounts pk = some acc)
    (hcur : w.currentAccount = some pk)
    (hpw : w.password = some pw) (hpw2 : pw ≠ "")
    (hstore : w.encryptedStorage = some (Ciphertext.cipher (walletPayload w) pw)) :
    ∃ w', selectAccount w pk = Except.ok w' ∧
      w'.accounts = w.accounts ∧
      w'.currentAccount = w.currentAccount ∧
      w'.encryptedStorage = w.encryptedStorage ∧
      ∀ c, w.encryptedStorage = some c → decrypt c pw = some (walletPayload w') := by
  have hk : objHasKey w.accounts pk = true := objHasKey_of_objGet_some _ _ _ hget
  have hw1 : ({ w with currentAccount := some pk } : WalletState) = w := by
    rw [← hcur]
  have hfull : getFullAccount w = Except.ok (w, some acc) := by
    refine getFullAccount_hit w acc ?_
    rw [hcur]
    exact hget
  have hsave := saveStorage_of_some { w with tronPrivateKey := some acc.privateKey }
    none pw hpw hpw2
  have hsel : selectAccount w pk = Except.ok
      { w with
        tronPrivateKey := some acc.privateKey
        encryptedStorage := some (Ciphertext.cipher (walletPayload w) pw)
        password := some pw } := by
    unfold selectAccount
    rw [if_pos hk, hw1]
    simp only [hfull]
    exact hsave
  refine ⟨_, hsel, rfl, rfl, hstore.symm, ?_⟩
  intro c hc
  rw [hstore] at hc
  cases hc
  simp only [decrypt, if_pos rfl, Option.some.injEq]
  rfl

/-- C4: unlock never throws past the state-machine boundary; any failure is
reported as false with the status unchanged, and success returns true,
rehydrates directory, selected account and counter from the decrypted
payload, points the signing key at the selected account and unlocks. -/
theorem c4_unlock_boolean_outcome :
    (∀ w pw, (unlockWallet w pw).2 = false →
      (unlockWallet w pw).1.walletStatus = w.walletStatus) ∧
    (∀ w pw payload pk acc,
      w.encryptedStorage = some (Ciphertext.cipher payload pw) →
      payload.currentAccount = some pk →
      objGet payload.accounts pk = some acc →
      (unlockWallet w pw).2 = true ∧
      (unlockWallet w pw).1.walletStatus = WalletStatus.unlocked ∧
      (unlockWallet w pw).1.accounts = payload.accounts ∧
      (unlockWallet w pw).1.currentAccount = some pk ∧
      (unlockWallet w pw).1.internalAccounts = payload.internalAccounts ∧
      (unlockWallet w pw).1.mnemonic = payload.mnemonic ∧
      (unlockWallet w pw).1.tronPrivateKey = some acc.privateKey) := by
  constructor
  · intro w pw h
    rcases unlock_success_or_status w pw with h1 | h1
    · rw [h] at h1
      exact absurd h1 (by simp)
    · exact h1
  · intro w pw payload pk acc hstore hcur hget
    have hdec : decrypt (Ciphertext.cipher payload pw) pw = some payload := by
      simp [decrypt]
    have hfull : getFullAccount { w with
        rootAccount := payload.mnemonic
        accounts := payload.accounts
        mnemonic := payload.mnemonic
        currentAccount := payload.currentAccount
        password := some pw
        internalAccounts := payload.internalAccounts
        encryptedStorage := some (Ciphertext.cipher payload pw) } = Except.ok
      ({ w with
        rootAccount := payload.mnemonic
        accounts := payload.accounts
        mnemonic := payload.mnemonic
        currentAccount := payload.currentAccount
        password := some pw
        internalAccounts := payload.internalAccounts
        encryptedStorage := some (Ciphertext.cipher payload pw) }, some acc) := by
      refine getFullAccount_hit _ acc ?_
      show payload.currentAccount.bind (fun k => objGet payload.accounts k) = some acc
      rw [hcur]
      exact hget
    have hunlock : unlockWallet w pw = ({ w with
        rootAccount := payload.mnemonic
        accounts := payload.accounts
        mnemonic := payload.mnemonic
        currentAccount := payload.currentAccount
        password := some pw
        internalAccounts := payload.internalAccounts
        encryptedStorage := some (Ciphertext.cipher payload pw)
        tronPrivateKey := some acc.privateKey
        walletStatus := WalletStatus.unlocked }, true) := by
      unfold unlockWallet
      simp only [hstore, hdec, hfull]
    refine ⟨?_, ?_, ?_, ?_, ?_, ?_, ?_⟩ <;> rw [hunlock]
    exact hcur

/-- Witness for C9 at a concrete unlocked wallet selecting its own current
account. -/
theorem c9_witness :
    ∃ w', selectAccount exWallet "pk1" = Except.ok w' ∧
      w'.accounts = exWallet.accounts ∧
      w'.currentAccount = exWallet.currentAccount ∧
      w'.encryptedStorage = exWallet.encryptedStorage ∧
      ∀ c, exWallet.encryptedStorage = some c →
        decrypt c "pw" = some (walletPayload w') :=
  c9_selectAccount_idempotent exWallet "pk1" exAccount "pw" (by decide) rfl rfl
    (by decide) rfl

/-- Witness for C4: a failed unlock of the fresh wallet keeps its status, and
a matching-password unlock of a stored wallet succeeds. -/
theorem c4_witness :
    (unlockWallet initialWallet "p").1.walletStatus = initialWallet.walletStatus ∧
    (unlockWallet exWallet "pw").2 = true :=
  ⟨c4_unlock_boolean_outcome.1 initialWallet "p" rfl,
    (c4_unlock_boolean_outcome.2 exWallet "pw"
      { accounts := [("pk1", exAccount)]
        mnemonic := some "seed"
        currentAccount := some "pk1"
        internalAccounts := 1 } "pk1" exAccount rfl rfl (by decide)).1⟩

/-! Helper lemmas about the JS trim embedding. -/

theorem length_dropWhile_le (p : Char → Bool) (l : List Char) :
    (l.dropWhile p).length ≤ l.length := by
  induction l with
  | nil => simp
  | cons a t ih =>
    by_cases ha : p a = true
    · simp only [List.dropWhile_cons, ha, if_true]
      exact Nat.le_succ_of_le ih
    · simp only [List.dropWhile_cons, ha, if_false]
      simp

theorem dropWhile_head_not (p : Char → Bool) (l : List Char) (x : Char)
    (h : (l.dropWhile p).head? = some x) : p x = false := by
  induction l with
  | nil => simp [List.dropWhile] at h
  | cons a t ih =>
    by_cases ha : p a = true
    · rw [List.dropWhile_cons, if_pos ha] at h
      exact ih h
    · rw [List.dropWhile_cons, if_neg ha] at h
      have hax : a = x := by simpa using h
      rw [← hax]
      cases hb : p a
      · rfl
      · exact absurd hb ha

theorem trimList_length_le (l : List Char) : (trimList l).length ≤ l.length := by
  unfold trimList
  rw [List.length_reverse]
  calc ((l.dropWhile isWs).reverse.dropWhile isWs).length
      ≤ (l.dropWhile isWs).reverse.length := length_dropWhile_le isWs _
    _ = (l.dropWhile isWs).length := List.length_reverse _
    _ ≤ l.length := length_dropWhile_le isWs l

theorem trimList_trailing (l : List Char) (c : Char)
    (h : (trimList l).reverse.head? = some c) : isWs c = false := by
  unfold trimList at h
  rw [List.reverse_reverse] at h
  exact dropWhile_head_not isWs _ c h

theorem trimList_leading (l : List Char) (c : Char)
    (h : (trimList l).head? = some c) : isWs c = false := by
  unfold trimList at h
  have hsplit : ((l.dropWhile isWs).reverse.takeWhile isWs) ++
      ((l.dropWhile isWs).reverse.dropWhile isWs) = (l.dropWhile isWs).reverse :=
    List.takeWhile_append_dropWhile isWs (l.dropWhile isWs).reverse
  have ha : l.dropWhile isWs =
      ((l.dropWhile isWs).reverse.dropWhile isWs).reverse ++
        ((l.dropWhile isWs).reverse.takeWhile isWs).reverse := by
    rw [← List.reverse_append, hsplit, List.reverse_reverse]
  have hhead : (l.dropWhile isWs).head? = some c := by
    rw [ha]
    cases hb : ((l.dropWhile isWs).reverse.dropWhile isWs).reverse with
    | nil => rw [hb] at h; simp at h
    | cons d t =>
      rw [hb] at h
      simpa using h
  exact dropWhile_head_not isWs l c hhead

theorem trimmed_jsSubstrTrim (s : String) : TrimmedStr (jsSubstrTrim s) := by
  constructor
  · intro c hc
    exact trimList_leading (s.toList.take 32) c hc
  · intro c hc
    exact trimList_trailing (s.toList.take 32) c hc

theorem length_jsSubstrTrim (s : String) : (jsSubstrTrim s).toList.length ≤ 32 := by
  calc (jsSubstrTrim s).toList.length = (trimList (s.toList.take 32)).length := rfl
    _ ≤ (s.toList.take 32).length := trimList_length_le _
    _ ≤ 32 := List.length_take_le 32 s.toList

/-- saveStorage cannot throw once a truthy password is known. -/
theorem saveStorage_ne_error (w : WalletState) (p : Option String) (e : String)
    (h : jsStrTruthy w.password = true) : saveStorage w p ≠ Except.error e := by
  unfold saveStorage
  rw [if_neg (by simp [h])]
  simp

/-- The shape of a completed createAccount run. -/
theorem createAccount_spec (w : WalletState) (m name pw : String)
    (hroot : w.rootAccount = some m) (hname : name ≠ "")
    (hpw : w.password = some pw) (hne : pw ≠ "") :
    ∃ w2 a, createAccount w name = Except.ok (w2, a) ∧
      a.publicKey = (getAccountAtIndex m (w.internalAccounts + 1)).publicKey ∧
      a.internal = true ∧
      a.name = (if nameTaken w.accounts (jsSubstrTrim name) = true then none
                else some (jsSubstrTrim name)) ∧
      w2.accounts = objSet w.accounts a.publicKey (extendAccount a) ∧
      w2.internalAccounts = w.internalAccounts + 1 := by
  unfold createAccount
  simp only [hroot, if_neg hname]
  by_cases hcol : nameTaken w.accounts (jsSubstrTrim name) = true
  · rw [if_pos hcol]
    split
    · rename_i e heq
      exact absurd heq (saveStorage_ne_error _ none e (by
        dsimp only
        rw [hpw]
        exact (jsStrTruthy_some pw).mpr hne))
    · rename_i w2x heq
      rcases saveStorage_ok _ none w2x heq with ⟨pw2, hpw2, rfl⟩
      refine ⟨_, _, rfl, rfl, rfl, ?_, rfl, rfl⟩
      rw [if_pos hcol]
  · rw [if_neg hcol]
    split
    · rename_i e heq
      exact absurd heq (saveStorage_ne_error _ none e (by
        dsimp only
        rw [hpw]
        exact (jsStrTruthy_some pw).mpr hne))
    · rename_i w2x heq
      rcases saveStorage_ok _ none w2x heq with ⟨pw2, hpw2, rfl⟩
      refine ⟨_, _, rfl, rfl, rfl, ?_, rfl, rfl⟩
      rw [if_neg hcol]

/-- The shape of a completed raw import. -/
theorem rawImport_spec (w : WalletState) (key name pw : String)
    (hname : name ≠ "") (hpw : w.password = some pw) (hne : pw ≠ "") :
    ∃ w2 a, rawImport w key (some name) = Except.ok (w2, a) ∧
      a.publicKey = (accountFromPrivateKey key).publicKey ∧
      a.name = (if nameTaken w.accounts (jsSubstrTrim name) = true then none
                else some (jsSubstrTrim name)) ∧
      w2.accounts = objSet w.accounts a.publicKey (extendAccount a) := by
  unfold rawImport
  simp only [if_neg hname]
  by_cases hcol : nameTaken w.accounts (jsSubstrTrim name) = true
  · rw [if_pos hcol]
    split
    · rename_i e heq
      exact absurd heq (saveStorage_ne_error _ none e (by
        dsimp only
        rw [hpw]
        exact (jsStrTruthy_some pw).mpr hne))
    · rename_i w2x heq
      rcases saveStorage_ok _ none w2x heq with ⟨pw2, hpw2, rfl⟩
      refine ⟨_, _, rfl, rfl, ?_, rfl⟩
      rw [if_pos hcol]
  · rw [if_neg hcol]
    split
    · rename_i e heq
      exact absurd heq (saveStorage_ne_error _ none e (by
        dsimp only
        rw [hpw]
        exact (jsStrTruthy_some pw).mpr hne))
    · rename_i w2x heq
      rcases saveStorage_ok _ none w2x heq with ⟨pw2, hpw2, rfl⟩
      refine ⟨_, _, rfl, rfl, ?_, rfl⟩
      rw [if_neg hcol]

/-- C7: for createAccount and for a raw import with a requested name, the
stored name is the truncated-and-trimmed request, at most 32 characters and
trimmed; an exact collision with any existing account name drops the name
(the account is still created and registered), and every other entry of the
directory is untouched. -/
theorem c7_name_collision_policy :
    (∀ w m name pw, w.rootAccount = some m → name ≠ "" →
      w.password = some pw → pw ≠ "" →
      ∃ w2 a, createAccount w name = Except.ok (w2, a) ∧
        (nameTaken w.accounts (jsSubstrTrim name) = true → a.name = none) ∧
        (nameTaken w.accounts (jsSubstrTrim name) = false →
          a.name = some (jsSubstrTrim name)) ∧
        (∀ s, a.name = some s → s.toList.length ≤ 32 ∧ TrimmedStr s) ∧
        objGet w2.accounts a.publicKey = some (extendAccount a) ∧
        (∀ k, k ≠ a.publicKey → objGet w2.accounts k = objGet w.accounts k)) ∧
    (∀ w key name pw, name ≠ "" →
      w.password = some pw → pw ≠ "" →
      ∃ w2 a, rawImport w key (some name) = Except.ok (w2, a) ∧
        a.publicKey = (accountFromPrivateKey key).publicKey ∧
        (nameTaken w.accounts (jsSubstrTrim name) = true → a.name = none) ∧
        (nameTaken w.accounts (jsSubstrTrim name) = false →
          a.name = some (jsSubstrTrim name)) ∧
        (∀ s, a.name = some s → s.toList.length ≤ 32 ∧ TrimmedStr s) ∧
        objGet w2.accounts a.publicKey = some (extendAccount a) ∧
        (∀ k, k ≠ a.publicKey → objGet w2.accounts k = objGet w.accounts k)) := by
  constructor
  · intro w m name pw hroot hname hpw hne
    obtain ⟨w2, a, hca, hpk, hint, hnm, hacc, hcount⟩ :=
      createAccount_spec w m name pw hroot hname hpw hne
    refine ⟨w2, a, hca, ?_, ?_, ?_, ?_, ?_⟩
    · intro hc
      rw [hnm, if_pos hc]
    · intro hc
      rw [hnm, if_neg (by simp [hc])]
    · intro s hs
      rw [hnm] at hs
      by_cases hc : nameTaken w.accounts (jsSubstrTrim name) = true
      · rw [if_pos hc] at hs
        exact absurd hs (by simp)
      · rw [if_neg hc] at hs
        have hse : s = jsSubstrTrim name := by
          have := hs.symm
          simpa using this
        rw [hse]
        exact ⟨length_jsSubstrTrim name, trimmed_jsSubstrTrim name⟩
    · rw [hacc]
      exact objGet_objSet_self _ _ _
    · intro k hk
      rw [hacc]
      exact objGet_objSet_ne _ _ _ _ hk
  · intro w key name pw hname hpw hne
    obtain ⟨w2, a, hca, hpk, hnm, hacc⟩ := rawImport_spec w key name pw hname hpw hne
    refine ⟨w2, a, hca, hpk, ?_, ?_, ?_, ?_, ?_⟩
    · intro hc
      rw [hnm, if_pos hc]
    · intro hc
      rw [hnm, if_neg (by simp [hc])]
    · intro s hs
      rw [hnm] at hs
      by_cases hc : nameTaken w.accounts (jsSubstrTrim name) = true
      · rw [if_pos hc] at hs
        exact absurd hs (by simp)
      · rw [if_neg hc] at hs
        have hse : s = jsSubstrTrim name := by
          have := hs.symm
          simpa using this
        rw [hse]
        exact ⟨length_jsSubstrTrim name, trimmed_jsSubstrTrim name⟩
    · rw [hacc]
      exact objGet_objSet_self _ _ _
    · intro k hk
      rw [hacc]
      exact objGet_objSet_ne _ _ _ _ hk

/-- Witness for C7 at a concrete wallet whose selected account is already
named Main: a create request and a raw-import request with fresh names. -/
theorem c7_witness :
    (∃ w2 a, createAccount exWallet "Main" = Except.ok (w2, a) ∧
      (nameTaken exWallet.accounts (jsSubstrTrim "Main") = true → a.name = none) ∧
      (nameTaken exWallet.accounts (jsSubstrTrim "Main") = false →
        a.name = some (jsSubstrTrim "Main")) ∧
      (∀ s, a.name = some s → s.toList.length ≤ 32 ∧ TrimmedStr s) ∧
      objGet w2.accounts a.publicKey = some (extendAccount a) ∧
      (∀ k, k ≠ a.publicKey → objGet w2.accounts k = objGet exWallet.accounts k)) ∧
    (∃ w2 a, rawImport exWallet "rawkey" (some "  Fresh Name  ") = Except.ok (w2, a) ∧
      a.publicKey = (accountFromPrivateKey "rawkey").publicKey ∧
      (nameTaken exWallet.accounts (jsSubstrTrim "  Fresh Name  ") = true →
        a.name = none) ∧
      (nameTaken exWallet.accounts (jsSubstrTrim "  Fresh Name  ") = false →
        a.name = some (jsSubstrTrim "  Fresh Name  ")) ∧
      (∀ s, a.name = some s → s.toList.length ≤ 32 ∧ TrimmedStr s) ∧
      objGet w2.accounts a.publicKey = some (extendAccount a) ∧
      (∀ k, k ≠ a.publicKey → objGet w2.accounts k = objGet exWallet.accounts k)) :=
  ⟨c7_name_collision_policy.1 exWallet "seed" "Main" "pw" rfl (by decide) rfl
      (by decide),
    c7_name_collision_policy.2 exWallet "rawkey" "  Fresh Name  " "pw" (by decide)
      rfl (by decide)⟩

/-! Helper lemmas about the seed-phrase gap scan. -/

theorem mnemonicScan_zero (txs : String → List Nat) (ex : List (String × Account))
    (m : String) (name : Option String) (idx checked : Nat) (acc : List Account) :
    mnemonicScan txs ex m name 0 idx checked acc =
      if checked < 20 then none else some acc := rfl

theorem mnemonicScan_step_empty (txs : String → List Nat)
    (ex : List (String × Account)) (m : String) (fuel idx checked : Nat)
    (acc : List Account) (hchk : checked < 20)
    (hemp : txs (getAccountAtIndex m idx).publicKey = []) :
    mnemonicScan txs ex m none (fuel + 1) idx checked acc =
      mnemonicScan txs ex m none fuel (idx + 1) (checked + 1) acc := by
  show mnemonicScan txs ex m none (Nat.succ fuel) idx checked acc = _
  simp only [mnemonicScan]
  rw [if_pos hchk, if_pos (by rw [hemp]; rfl)]

theorem mnemonicScan_step_hit (txs : String → List Nat)
    (ex : List (String × Account)) (m : String) (fuel idx checked : Nat)
    (acc : List Account) (hchk : checked < 20)
    (hne : txs (getAccountAtIndex m idx).publicKey ≠ [])
    (hpres : objHasKey ex (getAccountAtIndex m idx).publicKey = false) :
    mnemonicScan txs ex m none (fuel + 1) idx checked acc =
      mnemonicScan txs ex m none fuel (idx + 1) 0
        (acc ++ [getAccountAtIndex m idx]) := by
  show mnemonicScan txs ex m none (Nat.succ fuel) idx checked acc = _
  simp only [mnemonicScan]
  rw [if_pos hchk, if_neg (by simpa [List.length_eq_zero] using hne),
    if_neg (by simp [hpres])]

theorem mnemonicScan_step_present (txs : String → List Nat)
    (ex : List (String × Account)) (m : String) (fuel idx checked : Nat)
    (acc : List Account) (hchk : checked < 20)
    (hne : txs (getAccountAtIndex m idx).publicKey ≠ [])
    (hpres : objHasKey ex (getAccountAtIndex m idx).publicKey = true) :
    mnemonicScan txs ex m none (fuel + 1) idx checked acc =
      mnemonicScan txs ex m none fuel (idx + 1) 0 acc := by
  show mnemonicScan txs ex m none (Nat.succ fuel) idx checked acc = _
  simp only [mnemonicScan]
  rw [if_pos hchk, if_neg (by simpa [List.length_eq_zero] using hne), if_pos hpres]

theorem mnemonicScan_empty_run (txs : String → List Nat)
    (ex : List (String × Account)) (m : String) :
    ∀ (k idx checked : Nat) (acc : List Account) (fuel : Nat),
      checked + k = 20 → k ≤ fuel →
      (∀ j, j < k → txs (getAccountAtIndex m (idx + j)).publicKey = []) →
      mnemonicScan txs ex m none fuel idx checked acc = some acc := by
  intro k
  induction k with
  | zero =>
    intro idx checked acc fuel h20 _ _
    have hn : ¬ checked < 20 := by omega
    cases fuel with
    | zero => rw [mnemonicScan_zero, if_neg hn]
    | succ f =>
      show mnemonicScan txs ex m none (Nat.succ f) idx checked acc = some acc
      simp only [mnemonicScan]
      rw [if_neg hn]
  | succ k ih =>
    intro idx checked acc fuel h20 hf hj
    have hchk : checked < 20 := by omega
    cases fuel with
    | zero => omega
    | succ f =>
      rw [mnemonicScan_step_empty txs ex m f idx checked acc hchk
        (by simpa using hj 0 (by omega))]
      refine ih (idx + 1) (checked + 1) acc f (by omega) (by omega) ?_
      intro j hjk
      have harg : idx + 1 + j = idx + (j + 1) := by omega
      rw [harg]
      exact hj (j + 1) (by omega)

theorem mnemonicScan_empty_run_short (txs : String → List Nat)
    (ex : List (String × Account)) (m : String) :
    ∀ (k idx checked : Nat) (acc : List Account) (fuel : Nat),
      checked + k = 20 → fuel < k →
      (∀ j, j < k → txs (getAccountAtIndex m (idx + j)).publicKey = []) →
      mnemonicScan txs ex m none fuel idx checked acc = none := by
  intro k
  induction k with
  | zero =>
    intro idx checked acc fuel _ hf _
    omega
  | succ k ih =>
    intro idx checked acc fuel h20 hf hj
    have hchk : checked < 20 := by omega
    cases fuel with
    | zero => rw [mnemonicScan_zero, if_pos hchk]
    | succ f =>
      rw [mnemonicScan_step_empty txs ex m f idx checked acc hchk
        (by simpa using hj 0 (by omega))]
      refine ih (idx + 1) (checked + 1) acc f (by omega) (by omega) ?_
      intro j hjk
      have harg : idx + 1 + j = idx + (j + 1) := by omega
      rw [harg]
      exact hj (j + 1) (by omega)

/-- The scan on a seed whose first three derived accounts have history and
the rest do not: with fuel for 23 iterations it keeps exactly those three
and stops; with fuel for 22 it is still running, so the loop halts exactly
at the 20-empty-in-a-row boundary. -/
theorem mnemonicScan_scenario (txs : String → List Nat)
    (ex : List (String × Account)) (m : String)
    (h1 : ∀ i, i < 3 → txs (getAccountAtIndex m i).publicKey ≠ [])
    (h2 : ∀ i, 3 ≤ i → txs (getAccountAtIndex m i).publicKey = [])
    (h3 : ∀ i, i < 3 → objHasKey ex (getAccountAtIndex m i).publicKey = false) :
    (∀ fuel, 23 ≤ fuel → mnemonicScan txs ex m none fuel 0 0 [] =
      some [getAccountAtIndex m 0, getAccountAtIndex m 1, getAccountAtIndex m 2]) ∧
    mnemonicScan txs ex m none 22 0 0 [] = none := by
  constructor
  · intro fuel hf
    obtain ⟨k, rfl⟩ : ∃ k, fuel = 23 + k := ⟨fuel - 23, by omega⟩
    have e1 : 23 + k = 22 + k + 1 := by omega
    rw [e1, mnemonicScan_step_hit txs ex m (22 + k) 0 0 [] (by omega)
      (h1 0 (by omega)) (h3 0 (by omega))]
    have e2 : 22 + k = 21 + k + 1 := by omega
    rw [e2, mnemonicScan_step_hit txs ex m (21 + k) 1 0 _ (by omega)
      (h1 1 (by omega)) (h3 1 (by omega))]
    have e3 : 21 + k = 20 + k + 1 := by omega
    rw [e3, mnemonicScan_step_hit txs ex m (20 + k) 2 0 _ (by omega)
      (h1 2 (by omega)) (h3 2 (by omega))]
    rw [mnemonicScan_empty_run txs ex m 20 3 0 _ (20 + k) (by omega) (by omega)
      (fun j hj => h2 (3 + j) (by omega))]
    simp
  · rw [show (22 : Nat) = 21 + 1 from rfl,
      mnemonicScan_step_hit txs ex m 21 0 0 [] (by omega) (h1 0 (by omega))
        (h3 0 (by omega)),
      show (21 : Nat) = 20 + 1 from rfl,
      mnemonicScan_step_hit txs ex m 20 1 0 _ (by omega) (h1 1 (by omega))
        (h3 1 (by omega)),
      show (20 : Nat) = 19 + 1 from rfl,
      mnemonicScan_step_hit txs ex m 19 2 0 _ (by omega) (h1 2 (by omega))
        (h3 2 (by omega))]
    exact mnemonicScan_empty_run_short txs ex m 20 3 0 _ 19 (by omega) (by omega)
      (fun j hj => h2 (3 + j) (by omega))

/-- addAccount with a known non-empty password: success, password kept, and
the account stored under its key. -/
theorem addAccount_spec (w : WalletState) (a : Account) (pw : String)
    (hpw : w.password = some pw) (hne : pw ≠ "") :
    ∃ w1, addAccount w a = Except.ok w1 ∧ w1.password = some pw ∧
      w1.accounts = objSet w.accounts a.publicKey (extendAccount a) := by
  unfold addAccount
  rw [saveStorage_of_some
    { w with accounts := objSet w.accounts a.publicKey (extendAccount a) }
    none pw hpw hne]
  exact ⟨_, rfl, rfl, rfl⟩

/-- Registering a list of imported accounts succeeds, keeps the password,
keeps every existing key and registers every listed account. -/
theorem addAll_spec (accounts : List Account) :
    ∀ (w : WalletState) (pw : String), w.password = some pw → pw ≠ "" →
    ∃ w2, addAll w accounts = Except.ok w2 ∧ w2.password = some pw ∧
      (∀ pk, objHasKey w.accounts pk = true → objHasKey w2.accounts pk = true) ∧
      (∀ b, b ∈ accounts → objHasKey w2.accounts b.publicKey = true) := by
  induction accounts with
  | nil =>
    intro w pw hpw _
    exact ⟨w, rfl, hpw, fun _ h => h, by simp⟩
  | cons a rest ih =>
    intro w pw hpw hne
    obtain ⟨w1, hadd, hp1, hacc1⟩ := addAccount_spec w a pw hpw hne
    obtain ⟨w2, hall, hp2, hkeep, hmem⟩ := ih w1 pw hp1 hne
    refine ⟨w2, ?_, hp2, ?_, ?_⟩
    · simp only [addAll, hadd]
      exact hall
    · intro pk h
      refine hkeep pk ?_
      rw [hacc1, objHasKey_objSet, h]
      simp
    · intro b hb
      rcases List.mem_cons.mp hb with hb | hb
      · refine hkeep b.publicKey ?_
        rw [hb, hacc1, objHasKey_objSet]
        simp
      · exact hmem b hb

theorem getAccountAtIndex_publicKey_length (m : String) (i : Nat) :
    (getAccountAtIndex m i).publicKey.length = m.length + 6 + i := by
  show (m ++ "-addr-" ++ String.mk (List.replicate i 'x')).length = m.length + 6 + i
  rw [String.length_append, String.length_append]
  have h1 : ("-addr-" : String).length = 6 := rfl
  have h2 : (String.mk (List.replicate i 'x')).length = i := by
    show (List.replicate i 'x').length = i
    exact List.length_replicate i 'x'
  rw [h1, h2]

/-- C6: the gap scan of _importMnemonic, in full generality over the Chain
Client history and the wallet directory: an index with no history advances
the consecutive-empty counter; an index with history resets the counter to
zero whatever its current value, keeping the account unless it is already
present in the directory (then it is skipped); the loop returns the kept
accounts exactly when the counter reaches 20. In particular a seed with
three active leading accounts and none after yields exactly those three,
registered, with the same answer under any larger iteration budget and the
loop still running one iteration earlier; and with the index-1 account
already present the same seed yields exactly the other two. -/
theorem c6_mnemonic_gap_scan (txs : String → List Nat) (m : String) :
    (∀ (ex : List (String × Account)) (fuel idx checked : Nat)
        (acc : List Account), checked < 20 →
      txs (getAccountAtIndex m idx).publicKey = [] →
      mnemonicScan txs ex m none (fuel + 1) idx checked acc =
        mnemonicScan txs ex m none fuel (idx + 1) (checked + 1) acc) ∧
    (∀ (ex : List (String × Account)) (fuel idx checked : Nat)
        (acc : List Account), checked < 20 →
      txs (getAccountAtIndex m idx).publicKey ≠ [] →
      objHasKey ex (getAccountAtIndex m idx).publicKey = true →
      mnemonicScan txs ex m none (fuel + 1) idx checked acc =
        mnemonicScan txs ex m none fuel (idx + 1) 0 acc) ∧
    (∀ (ex : List (String × Account)) (fuel idx checked : Nat)
        (acc : List Account), checked < 20 →
      txs (getAccountAtIndex m idx).publicKey ≠ [] →
      objHasKey ex (getAccountAtIndex m idx).publicKey = false →
      mnemonicScan txs ex m none (fuel + 1) idx checked acc =
        mnemonicScan txs ex m none fuel (idx + 1) 0
          (acc ++ [getAccountAtIndex m idx])) ∧
    (∀ (ex : List (String × Account)) (fuel idx checked : Nat)
        (acc : List Account), 20 ≤ checked →
      mnemonicScan txs ex m none fuel idx checked acc = some acc) ∧
    (∀ (w : WalletState) (pw : String), w.password = some pw → pw ≠ "" →
      (∀ i, i < 3 → txs (getAccountAtIndex m i).publicKey ≠ []) →
      (∀ i, 3 ≤ i → txs (getAccountAtIndex m i).publicKey = []) →
      (∀ i, i < 3 →
        objHasKey w.accounts (getAccountAtIndex m i).publicKey = false) →
      ∃ w2, mnemonicImport txs w m none 23 =
          some (Except.ok (w2, [getAccountAtIndex m 0, getAccountAtIndex m 1,
            getAccountAtIndex m 2])) ∧
        (∀ i, i < 3 →
          objHasKey w2.accounts (getAccountAtIndex m i).publicKey = true) ∧
        (∀ fuel, 23 ≤ fuel →
          mnemonicImport txs w m none fuel = mnemonicImport txs w m none 23) ∧
        mnemonicImport txs w m none 22 = none) ∧
    (∀ (w : WalletState) (pw : String), w.password = some pw → pw ≠ "" →
      (∀ i, i < 3 → txs (getAccountAtIndex m i).publicKey ≠ []) →
      (∀ i, 3 ≤ i → txs (getAccountAtIndex m i).publicKey = []) →
      objHasKey w.accounts (getAccountAtIndex m 0).publicKey = false →
      objHasKey w.accounts (getAccountAtIndex m 1).publicKey = true →
      objHasKey w.accounts (getAccountAtIndex m 2).publicKey = false →
      ∃ w2, mnemonicImport txs w m none 23 =
          some (Except.ok (w2, [getAccountAtIndex m 0, getAccountAtIndex m 2])) ∧
        objHasKey w2.accounts (getAccountAtIndex m 0).publicKey = true ∧
        objHasKey w2.accounts (getAccountAtIndex m 2).publicKey = true ∧
        getAccountAtIndex m 1 ∉
          [getAccountAtIndex m 0, getAccountAtIndex m 2]) := by
  refine ⟨?_, ?_, ?_, ?_, ?_, ?_⟩
  · intro ex fuel idx checked acc hchk hemp
    exact mnemonicScan_step_empty txs ex m fuel idx checked acc hchk hemp
  · intro ex fuel idx checked acc hchk hne hpres
    exact mnemonicScan_step_present txs ex m fuel idx checked acc hchk hne hpres
  · intro ex fuel idx checked acc hchk hne hpres
    exact mnemonicScan_step_hit txs ex m fuel idx checked acc hchk hne hpres
  · intro ex fuel idx checked acc hge
    have hn : ¬ checked < 20 := by omega
    cases fuel with
    | zero => rw [mnemonicScan_zero, if_neg hn]
    | succ f =>
      show mnemonicScan txs ex m none (Nat.succ f) idx checked acc = some acc
      simp only [mnemonicScan]
      rw [if_neg hn]
  · intro w pw hpw hne h1 h2 h3
    obtain ⟨hscan, hshort⟩ := mnemonicScan_scenario txs w.accounts m h1 h2 h3
    obtain ⟨w2, hall, _, _, hmem⟩ :=
      addAll_spec [getAccountAtIndex m 0, getAccountAtIndex m 1,
        getAccountAtIndex m 2] w pw hpw hne
    refine ⟨w2, ?_, ?_, ?_, ?_⟩
    · unfold mnemonicImport
      simp only [hscan 23 (by omega), hall]
    · intro i hi
      interval_cases i
      · exact hmem _ (by simp)
      · exact hmem _ (by simp)
      · exact hmem _ (by simp)
    · intro fuel hf
      unfold mnemonicImport
      simp only [hscan fuel hf, hscan 23 (by omega)]
    · unfold mnemonicImport
      simp only [hshort]
  · intro w pw hpw hne h1 h2 hp0 hp1 hp2
    have hscan : mnemonicScan txs w.accounts m none 23 0 0 [] =
        some [getAccountAtIndex m 0, getAccountAtIndex m 2] := by
      rw [show (23 : Nat) = 22 + 1 from rfl,
        mnemonicScan_step_hit txs w.accounts m 22 0 0 [] (by omega)
          (h1 0 (by omega)) hp0,
        show (22 : Nat) = 21 + 1 from rfl,
        mnemonicScan_step_present txs w.accounts m 21 1 0 _ (by omega)
          (h1 1 (by omega)) hp1,
        show (21 : Nat) = 20 + 1 from rfl,
        mnemonicScan_step_hit txs w.accounts m 20 2 0 _ (by omega)
          (h1 2 (by omega)) hp2,
        mnemonicScan_empty_run txs w.accounts m 20 3 0 _ 20 (by omega) (by omega)
          (fun j hj => h2 (3 + j) (by omega))]
      simp
    obtain ⟨w2, hall, _, _, hmem⟩ :=
      addAll_spec [getAccountAtIndex m 0, getAccountAtIndex m 2] w pw hpw hne
    have h01 : (getAccountAtIndex m 1).publicKey.length ≠
        (getAccountAtIndex m 0).publicKey.length := by
      rw [getAccountAtIndex_publicKey_length, getAccountAtIndex_publicKey_length]
      omega
    have h21 : (getAccountAtIndex m 1).publicKey.length ≠
        (getAccountAtIndex m 2).publicKey.length := by
      rw [getAccountAtIndex_publicKey_length, getAccountAtIndex_publicKey_length]
      omega
    refine ⟨w2, ?_, hmem _ (by simp), hmem _ (by simp), ?_⟩
    · unfold mnemonicImport
      simp only [hscan, hall]
    · intro hmm
      have hcase : getAccountAtIndex m 1 = getAccountAtIndex m 0 ∨
          getAccountAtIndex m 1 = getAccountAtIndex m 2 := by simpa using hmm
      rcases hcase with h | h
      · exact h01 (by rw [h])
      · exact h21 (by rw [h])

/-- The first three derived accounts of seed m are active under c6Txs. -/
theorem c6Txs_active :
    ∀ i, i < 3 → c6Txs (getAccountAtIndex "m" i).publicKey ≠ [] := by
  intro i hi
  interval_cases i <;> decide

/-- Every later derived account of seed m is empty under c6Txs. -/
theorem c6Txs_empty :
    ∀ i, 3 ≤ i → c6Txs (getAccountAtIndex "m" i).publicKey = [] := by
  intro i hi
  simp only [c6Txs]
  rw [if_neg]
  rintro (h | h | h) <;>
    (have hlen := congrArg String.length h
     rw [getAccountAtIndex_publicKey_length, getAccountAtIndex_publicKey_length]
       at hlen
     omega)

/-- Witness for C6: each general scan-step clause at a concrete index and
counter value, the stop-at-20 clause, the three-active scenario at a wallet
holding none of the derived accounts, and the skip scenario at a wallet
already holding the index-1 account. -/
theorem c6_witness :
    mnemonicScan c6Txs [] "m" none 4 5 2 [] =
      mnemonicScan c6Txs [] "m" none 3 6 3 [] ∧
    mnemonicScan c6Txs [((getAccountAtIndex "m" 1).publicKey, exAccount)] "m"
        none 4 1 7 [] =
      mnemonicScan c6Txs [((getAccountAtIndex "m" 1).publicKey, exAccount)] "m"
        none 3 2 0 [] ∧
    mnemonicScan c6Txs [] "m" none 4 0 7 [] =
      mnemonicScan c6Txs [] "m" none 3 1 0 ([] ++ [getAccountAtIndex "m" 0]) ∧
    mnemonicScan c6Txs [] "m" none 0 9 20 [getAccountAtIndex "m" 0] =
      some [getAccountAtIndex "m" 0] ∧
    (∃ w2, mnemonicImport c6Txs exWallet "m" none 23 =
        some (Except.ok (w2, [getAccountAtIndex "m" 0, getAccountAtIndex "m" 1,
          getAccountAtIndex "m" 2])) ∧
      (∀ i, i < 3 →
        objHasKey w2.accounts (getAccountAtIndex "m" i).publicKey = true) ∧
      (∀ fuel, 23 ≤ fuel → mnemonicImport c6Txs exWallet "m" none fuel =
        mnemonicImport c6Txs exWallet "m" none 23) ∧
      mnemonicImport c6Txs exWallet "m" none 22 = none) ∧
    (∃ w2, mnemonicImport c6Txs exWalletM1 "m" none 23 =
        some (Except.ok (w2, [getAccountAtIndex "m" 0, getAccountAtIndex "m" 2])) ∧
      objHasKey w2.accounts (getAccountAtIndex "m" 0).publicKey = true ∧
      objHasKey w2.accounts (getAccountAtIndex "m" 2).publicKey = true ∧
      getAccountAtIndex "m" 1 ∉
        [getAccountAtIndex "m" 0, getAccountAtIndex "m" 2]) :=
  ⟨(c6_mnemonic_gap_scan c6Txs "m").1 [] 3 5 2 [] (by decide) (by decide),
    (c6_mnemonic_gap_scan c6Txs "m").2.1
      [((getAccountAtIndex "m" 1).publicKey, exAccount)] 3 1 7 [] (by decide)
      (by decide) (by decide),
    (c6_mnemonic_gap_scan c6Txs "m").2.2.1 [] 3 0 7 [] (by decide) (by decide)
      (by decide),
    (c6_mnemonic_gap_scan c6Txs "m").2.2.2.1 [] 0 9 20 [getAccountAtIndex "m" 0]
      (by decide),
    (c6_mnemonic_gap_scan c6Txs "m").2.2.2.2.1 exWallet "pw" rfl (by decide)
      c6Txs_active c6Txs_empty (by intro i hi; interval_cases i <;> decide),
    (c6_mnemonic_gap_scan c6Txs "m").2.2.2.2.2 exWalletM1 "pw" rfl (by decide)
      c6Txs_active c6Txs_empty (by decide) (by decide) (by decide)⟩

/-! Invariant preservation for every surface operation. -/

theorem saveStorage_inv (w : WalletState) (p : Option String) (w' : WalletState)
    (h : saveStorage w p = Except.ok w')
    (hne : w.accounts ≠ []) (hnd : nodupKeys w.accounts = true) : Inv w' := by
  rcases saveStorage_ok w p w' h with ⟨pw, hpw, rfl⟩
  exact ⟨hne, hnd, (jsStrTruthy_some pw).mpr hpw, hne, hnd, hpw⟩

theorem addAccount_inv (w : WalletState) (a : Account) (w' : WalletState)
    (h : addAccount w a = Except.ok w')
    (hnd : nodupKeys w.accounts = true) : Inv w' := by
  unfold addAccount at h
  exact saveStorage_inv _ none w' h (objSet_ne_nil _ _ _) (nodupKeys_objSet _ _ _ hnd)

/-- The closing match of createAccount and rawImport. -/
theorem addAccount_match_inv (W : WalletState) (A : Account) (w' : WalletState)
    (a : Account)
    (h : (match addAccount W A with
          | Except.error e => Except.error e
          | Except.ok w2 => Except.ok (w2, A)) = Except.ok (w', a))
    (hnd : nodupKeys W.accounts = true) : Inv w' := by
  split at h
  · exact absurd h (by simp)
  · rename_i w2 heq
    simp only [Except.ok.injEq, Prod.mk.injEq] at h
    rw [← h.1]
    exact addAccount_inv W A w2 heq hnd

theorem createAccount_inv (w : WalletState) (name : String) (w' : WalletState)
    (a : Account) (h : createAccount w name = Except.ok (w', a))
    (hnd : nodupKeys w.accounts = true) : Inv w' := by
  unfold createAccount at h
  split at h
  · exact absurd h (by simp)
  · dsimp only at h
    exact addAccount_match_inv _ _ w' a h hnd

theorem rawImport_inv (w : WalletState) (pk : String) (name : Option String)
    (w' : WalletState) (a : Account) (h : rawImport w pk name = Except.ok (w', a))
    (hnd : nodupKeys w.accounts = true) : Inv w' := by
  unfold rawImport at h
  dsimp only at h
  exact addAccount_match_inv _ _ w' a h hnd

theorem addAll_inv (accounts : List Account) :
    ∀ w w2, addAll w accounts = Except.ok w2 → Inv w → Inv w2 := by
  induction accounts with
  | nil =>
    intro w w2 h hinv
    simp only [addAll, Except.ok.injEq] at h
    rw [← h]
    exact hinv
  | cons a rest ih =>
    intro w w2 h hinv
    simp only [addAll] at h
    split at h
    · exact absurd h (by simp)
    · rename_i w1 heq
      exact ih w1 w2 h (addAccount_inv w a w1 heq hinv.2.1)

theorem mnemonicImport_inv (txs : String → List Nat) (w : WalletState)
    (m : String) (name : Option String) (fuel : Nat) (w' : WalletState)
    (l : List Account)
    (h : mnemonicImport txs w m name fuel = some (Except.ok (w', l)))
    (hinv : Inv w) : Inv w' := by
  unfold mnemonicImport at h
  split at h
  · exact absurd h (by simp)
  · simp only [Option.some.injEq] at h
    split at h
    · exact absurd h (by simp)
    · rename_i w2 heq
      simp only [Except.ok.injEq, Prod.mk.injEq] at h
      rw [← h.1]
      exact addAll_inv _ w w2 heq hinv

theorem getFullAccount_inv (w w2 : WalletState) (r : Option Account)
    (h : getFullAccount w = Except.ok (w2, r)) (hinv : Inv w) :
    Inv w2 ∧ w2.accounts = w.accounts := by
  unfold getFullAccount at h
  split at h
  · simp only [Except.ok.injEq, Prod.mk.injEq] at h
    rw [← h.1]
    exact ⟨hinv, rfl⟩
  · dsimp only at h
    split at h
    · exact absurd h (by simp)
    · rename_i wx hs
      simp only [Except.ok.injEq, Prod.mk.injEq] at h
      rw [← h.1]
      refine ⟨saveStorage_inv _ none wx hs hinv.1 hinv.2.1, ?_⟩
      exact (saveStorage_fields _ _ _ hs).1

theorem selectAccount_inv (w : WalletState) (pk : String) (w' : WalletState)
    (h : selectAccount w pk = Except.ok w') (hinv : Inv w) : Inv w' := by
  unfold selectAccount at h
  by_cases hk : objHasKey w.accounts pk = true
  · rw [if_pos hk] at h
    dsimp only at h
    split at h
    · exact absurd h (by simp)
    · exact absurd h (by simp)
    · rename_i w2 acc heq
      obtain ⟨hi2, hacc2⟩ := getFullAccount_inv _ _ _ heq hinv
      refine saveStorage_inv _ none w' h ?_ ?_
      · show w2.accounts ≠ []
        rw [hacc2]
        exact hinv.1
      · show nodupKeys w2.accounts = true
        rw [hacc2]
        exact hinv.2.1
  · rw [if_neg hk] at h
    simp only [Except.ok.injEq] at h
    rw [← h]
    exact hinv

theorem deleteAccount_inv (w : WalletState) (pk : String) (w' : WalletState)
    (h : deleteAccount w pk = Except.ok w') (hinv : Inv w) : Inv w' := by
  unfold deleteAccount at h
  by_cases h1 : objHasKey w.accounts pk = false
  · rw [if_pos h1] at h
    simp only [Except.ok.injEq] at h
    rw [← h]
    exact hinv
  · rw [if_neg h1] at h
    have hk : objHasKey w.accounts pk = true := by
      cases hb : objHasKey w.accounts pk
      · exact absurd hb h1
      · rfl
    by_cases h2 : (objKeys w.accounts).length = 1
    · rw [if_pos h2] at h
      simp only [Except.ok.injEq] at h
      rw [← h]
      exact hinv
    · rw [if_neg h2] at h
      dsimp only at h
      have hlen1 : (objDelete w.accounts pk).length + 1 = w.accounts.length :=
        objDelete_length _ _ hinv.2.1 hk
      have hlen2 : w.accounts.length ≠ 1 := by
        intro hh
        exact h2 (by rw [objKeys_length]; exact hh)
      have hdel_ne : objDelete w.accounts pk ≠ [] := by
        intro habs
        rw [habs] at hlen1
        exact hlen2 (by simpa using hlen1.symm)
      have hnd1 : nodupKeys (objDelete w.accounts pk) = true :=
        nodupKeys_objDelete _ _ hinv.2.1
      have hinv1 : Inv { w with accounts := objDelete w.accounts pk } :=
        ⟨hdel_ne, hnd1, hinv.2.2.1, hinv.2.2.2⟩
      by_cases h3 : w.currentAccount = some pk
      · rw [if_pos h3] at h
        split at h
        · rename_i k hk2
          exact selectAccount_inv _ k w' h hinv1
        · simp only [Except.ok.injEq] at h
          rw [← h]
          exact hinv1
      · rw [if_neg h3] at h
        exact saveStorage_inv _ none w' h hdel_ne hnd1

theorem unlockWallet_inv (w : WalletState) (pw : String) (w' : WalletState)
    (b : Bool) (h : unlockWallet w pw = (w', b)) (hinv : Inv w) : Inv w' := by
  unfold unlockWallet at h
  split at h
  · simp only [Prod.mk.injEq] at h
    rw [← h.1]
    exact hinv
  · rename_i cs heq1
    split at h
    · simp only [Prod.mk.injEq] at h
      rw [← h.1]
      exact hinv
    · rename_i payload hdec
      have hsOK := hinv.2.2.2
      rw [heq1] at hsOK
      cases cs with
      | corrupt => simp [decrypt] at hdec
      | cipher p pwc =>
        simp only [storageOK] at hsOK
        obtain ⟨hpa, hpn, hpwc⟩ := hsOK
        have hpay : payload = p ∧ pw = pwc := by
          simp only [decrypt] at hdec
          by_cases hpp : pw = pwc
          · rw [if_pos hpp] at hdec
            exact ⟨by simpa using hdec.symm, hpp⟩
          · rw [if_neg hpp] at hdec
            exact absurd hdec (by simp)
        have hw1inv : Inv { w with
            rootAccount := payload.mnemonic
            accounts := payload.accounts
            mnemonic := payload.mnemonic
            currentAccount := payload.currentAccount
            password := some pw
            internalAccounts := payload.internalAccounts } := by
          refine ⟨?_, ?_, ?_, ?_⟩
          · show payload.accounts ≠ []
            rw [hpay.1]
            exact hpa
          · show nodupKeys payload.accounts = true
            rw [hpay.1]
            exact hpn
          · show jsStrTruthy (some pw) = true
            refine (jsStrTruthy_some pw).mpr ?_
            rw [hpay.2]
            exact hpwc
          · show storageOK w.encryptedStorage
            exact hinv.2.2.2
        dsimp only at h
        split at h
        · simp only [Prod.mk.injEq] at h
          rw [← h.1]
          exact hw1inv
        · rename_i w2 heq2
          simp only [Prod.mk.injEq] at h
          rw [← h.1]
          exact (getFullAccount_inv _ _ _ heq2 hw1inv).1
        · rename_i w2 acc heq2
          simp only [Prod.mk.injEq] at h
          rw [← h.1]
          obtain ⟨hi2, _⟩ := getFullAccount_inv _ _ _ heq2 hw1inv
          exact ⟨hi2.1, hi2.2.1, hi2.2.2.1, hi2.2.2.2⟩

theorem getAccount_inv (w : WalletState) (addr : Option String) (w' : WalletState)
    (r : Option Account) (h : getAccount w addr = Except.ok (w', r))
    (hinv : Inv w) : Inv w' := by
  unfold getAccount at h
  by_cases hs : w.walletStatus ≠ WalletStatus.unlocked
  · rw [if_pos hs] at h
    simp only [Except.ok.injEq, Prod.mk.injEq] at h
    rw [← h.1]
    exact hinv
  · rw [if_neg hs] at h
    dsimp only at h
    split at h
    · simp only [Except.ok.injEq, Prod.mk.injEq] at h
      rw [← h.1]
      exact hinv
    · split at h
      · exact absurd h (by simp)
      · exact absurd h (by simp)
      · rename_i w2 acc heq
        split at h
        · exact absurd h (by simp)
        · rename_i w3 hs3
          simp only [Except.ok.injEq, Prod.mk.injEq] at h
          rw [← h.1]
          have hinv1 : Inv { w with currentAccount := (objKeys w.accounts).head? } :=
            ⟨hinv.1, hinv.2.1, hinv.2.2.1, hinv.2.2.2⟩
          obtain ⟨hi2, hacc2⟩ := getFullAccount_inv _ _ _ heq hinv1
          refine saveStorage_inv _ none w3 hs3 ?_ ?_
          · show w2.accounts ≠ []
            rw [hacc2]
            exact hinv.1
          · show nodupKeys w2.accounts = true
            rw [hacc2]
            exact hinv.2.1

theorem updateAccount_inv (env : ChainEnv) (w : WalletState) (addr : String)
    (sv : Bool) (w' : WalletState) (h : updateAccount env w addr sv = Except.ok w')
    (hinv : Inv w) : Inv w' := by
  unfold updateAccount at h
  split at h
  · exact absurd h (by simp)
  · rename_i old hold
    dsimp only at h
    by_cases hsv : sv = true
    · rw [if_pos hsv] at h
      exact saveStorage_inv _ none w' h (objSet_ne_nil _ _ _)
        (nodupKeys_objSet _ _ _ hinv.2.1)
    · rw [if_neg hsv] at h
      simp only [Except.ok.injEq] at h
      rw [← h]
      exact ⟨objSet_ne_nil _ _ _, nodupKeys_objSet _ _ _ hinv.2.1,
        hinv.2.2.1, hinv.2.2.2⟩

theorem updateAccountsGo_inv (env : ChainEnv) (keys : List String) :
    ∀ w w1, updateAccountsGo env w keys = Except.ok w1 → Inv w → Inv w1 := by
  induction keys with
  | nil =>
    intro w w1 h hinv
    simp only [updateAccountsGo, Except.ok.injEq] at h
    rw [← h]
    exact hinv
  | cons k ks ih =>
    intro w w1 h hinv
    simp only [updateAccountsGo] at h
    split at h
    · exact absurd h (by simp)
    · rename_i wx heq
      exact ih wx w1 h (updateAccount_inv env w k false wx heq hinv)

theorem updateAccounts_inv (env : ChainEnv) (w w' : WalletState)
    (h : updateAccounts env w = Except.ok w') (hinv : Inv w) : Inv w' := by
  unfold updateAccounts at h
  split at h
  · exact absurd h (by simp)
  · rename_i w1 heq
    have hi1 := updateAccountsGo_inv env (objKeys w.accounts) w w1 heq hinv
    exact saveStorage_inv _ none w' h hi1.1 hi1.2.1

theorem step_inv (w w' : WalletState) (h : Step w w') (hinv : Inv w) : Inv w' := by
  cases h with
  | create name a heq => exact createAccount_inv w name w' a heq hinv.2.1
  | importR pk name a heq => exact rawImport_inv w pk name w' a heq hinv.2.1
  | importM txs m name fuel l heq =>
    exact mnemonicImport_inv txs w m name fuel w' l heq hinv
  | select pk heq => exact selectAccount_inv w pk w' heq hinv
  | delete pk heq => exact deleteAccount_inv w pk w' heq hinv
  | unlock pw b heq => exact unlockWallet_inv w pw w' b heq hinv
  | getAcc addr r heq => exact getAccount_inv w addr w' r heq hinv
  | getFull r heq => exact (getFullAccount_inv w w' r heq hinv).1
  | update env addr sv heq => exact updateAccount_inv env w addr sv w' heq hinv
  | updateAll env heq => exact updateAccounts_inv env w w' heq hinv

theorem reachable_inv (w w' : WalletState) (h : Reachable w w') (hinv : Inv w) :
    Inv w' := by
  induction h with
  | refl => exact hinv
  | tail h1 h2 ih => exact step_inv _ _ h2 ih

theorem setupWallet_inv (m : String) (w : WalletState) (pw : String)
    (w0 : WalletState) (d : Account)
    (hnd : nodupKeys w.accounts = true)
    (h : setupWallet m w pw = Except.ok (w0, d)) : Inv w0 := by
  unfold setupWallet at h
  by_cases h1 : w.walletStatus ≠ WalletStatus.uninitialized
  · rw [if_pos h1] at h
    exact absurd h (by simp)
  · rw [if_neg h1] at h
    by_cases h2 : pw = ""
    · rw [if_pos h2] at h
      exact absurd h (by simp)
    · rw [if_neg h2] at h
      dsimp only at h
      split at h
      · exact absurd h (by simp)
      · rename_i w2 heq
        simp only [Except.ok.injEq, Prod.mk.injEq] at h
        have hinv2 : Inv w2 := addAccount_inv _ _ _ heq hnd
        have := unlockWallet_inv w2 pw (unlockWallet w2 pw).1
          (unlockWallet w2 pw).2 rfl hinv2
        rw [← h.1]
        exact this

/-- selectAccount on a known key: the explicit resulting state. -/
theorem selectAccount_hit (w : WalletState) (pk : String) (acc : Account)
    (pw : String) (hget : objGet w.accounts pk = some acc)
    (hpw : w.password = some pw) (hne : pw ≠ "") :
    selectAccount w pk = Except.ok { w with
      currentAccount := some pk
      tronPrivateKey := some acc.privateKey
      encryptedStorage := some (Ciphertext.cipher
        (walletPayload { w with currentAccount := some pk }) pw)
      password := some pw } := by
  unfold selectAccount
  rw [if_pos (objHasKey_of_objGet_some _ _ _ hget)]
  have hfull : getFullAccount { w with currentAccount := some pk } =
      Except.ok ({ w with currentAccount := some pk }, some acc) := by
    refine getFullAccount_hit _ acc ?_
    show (some pk).bind (fun k => objGet w.accounts k) = some acc
    simpa using hget
  simp only [hfull]
  exact saveStorage_of_some _ none pw hpw hne

/-- C5: once setup succeeds the Account Directory is non-empty in every
reachable state; deleteAccount is a strict no-op on an unknown identity and
on the sole remaining account; and deleting the selected one of several
accounts falls back to a remaining identity and persists the new directory. -/
theorem c5_nonempty_and_delete_safe :
    (∀ m w pw w0 d, nodupKeys w.accounts = true →
      setupWallet m w pw = Except.ok (w0, d) →
      ∀ w1, Reachable w0 w1 → w1.accounts ≠ []) ∧
    (∀ w pk, objHasKey w.accounts pk = false → deleteAccount w pk = Except.ok w) ∧
    (∀ w pk, (objKeys w.accounts).length = 1 → deleteAccount w pk = Except.ok w) ∧
    (∀ w pk pw, w.password = some pw → pw ≠ "" → nodupKeys w.accounts = true →
      objHasKey w.accounts pk = true → (objKeys w.accounts).length ≠ 1 →
      w.currentAccount = some pk →
      ∃ w' k, deleteAccount w pk = Except.ok w' ∧
        w'.accounts = objDelete w.accounts pk ∧
        w'.currentAccount = some k ∧ k ≠ pk ∧
        objHasKey w'.accounts k = true ∧
        ∃ p2 pw2, w'.encryptedStorage = some (Ciphertext.cipher p2 pw2) ∧
          p2.accounts = w'.accounts ∧ p2.currentAccount = some k) := by
  refine ⟨?_, ?_, ?_, ?_⟩
  · intro m w pw w0 d hnd hsetup w1 hreach
    exact (reachable_inv w0 w1 hreach (setupWallet_inv m w pw w0 d hnd hsetup)).1
  · intro w pk h
    unfold deleteAccount
    rw [if_pos h]
  · intro w pk h
    unfold deleteAccount
    by_cases h1 : objHasKey w.accounts pk = false
    · rw [if_pos h1]
    · rw [if_neg h1, if_pos h]
  · intro w pk pw hpw hne hnd hk hlen hcur
    unfold deleteAccount
    rw [if_neg (by simp [hk]), if_neg hlen]
    dsimp only
    rw [if_pos hcur]
    have hlen1 : (objDelete w.accounts pk).length + 1 = w.accounts.length :=
      objDelete_length _ _ hnd hk
    have hlen2 : w.accounts.length ≠ 1 := fun hh =>
      hlen (by rw [objKeys_length]; exact hh)
    have hdel_ne : objDelete w.accounts pk ≠ [] := by
      intro habs
      rw [habs] at hlen1
      exact hlen2 (by simpa using hlen1.symm)
    cases hL : objDelete w.accounts pk with
    | nil => exact absurd hL hdel_ne
    | cons p rest =>
      have hget : objGet (p :: rest) p.1 = some p.2 :=
        objGet_cons_hit p rest p.1 (by simp)
      have hsel := selectAccount_hit { w with accounts := p :: rest } p.1 p.2 pw
        hget hpw hne
      have hne2 : p.1 ≠ pk := by
        have hmem : objHasKey (objDelete w.accounts pk) p.1 = true := by
          rw [hL, objHasKey_cons]
          simp
        rw [objHasKey_objDelete] at hmem
        rcases (by simpa using hmem :
          objHasKey w.accounts p.1 = true ∧ (p.1 == pk) = false) with ⟨_, hb⟩
        exact ne_of_beq_false hb
      refine ⟨_, p.1, hsel, rfl, rfl, hne2, ?_, ?_⟩
      · rw [objHasKey_cons]
        simp
      · exact ⟨_, pw, rfl, rfl, rfl⟩

/-- Witness for C5: a fresh setup gives a non-empty reachable directory;
deleting an unknown identity and the sole account are no-ops; deleting the
selected one of two accounts falls back. -/
theorem c5_witness :
    (match setupWallet "s" initialWallet "p" with
     | Except.ok (w0, _) => w0.accounts
     | Except.error _ => []) ≠ [] ∧
    deleteAccount exWallet "zz" = Except.ok exWallet ∧
    deleteAccount exWallet "pk1" = Except.ok exWallet ∧
    (∃ w' k, deleteAccount exWallet2 "pk1" = Except.ok w' ∧
      w'.accounts = objDelete exWallet2.accounts "pk1" ∧
      w'.currentAccount = some k ∧ k ≠ "pk1" ∧
      objHasKey w'.accounts k = true ∧
      ∃ p2 pw2, w'.encryptedStorage = some (Ciphertext.cipher p2 pw2) ∧
        p2.accounts = w'.accounts ∧ p2.currentAccount = some k) := by
  refine ⟨?_, ?_, ?_, ?_⟩
  · have hiso : (setupWallet "s" initialWallet "p").toOption.isSome = true := by decide
    cases hsetup : setupWallet "s" initialWallet "p" with
    | error e =>
      rw [hsetup] at hiso
      simp [Except.toOption] at hiso
    | ok p0 =>
      obtain ⟨w0, d⟩ := p0
      exact c5_nonempty_and_delete_safe.1 "s" initialWallet "p" w0 d (by decide)
        hsetup w0 Relation.ReflTransGen.refl
  · exact c5_nonempty_and_delete_safe.2.1 exWallet "zz" (by decide)
  · exact c5_nonempty_and_delete_safe.2.2.1 exWallet "pk1" (by decide)
  · exact c5_nonempty_and_delete_safe.2.2.2 exWallet2 "pk1" "pw" rfl (by decide)
      (by decide) (by decide) (by decide) rfl

/-- C1: evaluated at the failing input — the wallet immediately after setup,
whose Default Account sits at seed index 0 and whose internal-account counter
is 1 — createAccount derives the new account at seed index 2, not at the next
unused index 1, so index 1 is never occupied even though the counter moves
from 1 to 2. -/
theorem c1_createAccount_skips_index_one :
    ((setupWallet "seed words" initialWallet "pass1").toOption.bind
      (fun p => (createAccount p.1 "").toOption)).map
        (fun q => (q.2.publicKey, q.1.internalAccounts, q.2.internal,
          objHasKey q.1.accounts (getAccountAtIndex "seed words" 1).publicKey,
          objGet q.1.accounts q.2.publicKey)) =
      some ((getAccountAtIndex "seed words" 2).publicKey, 2, true, false,
        some { getAccountAtIndex "seed words" 2 with internal := true }) ∧
    (getAccountAtIndex "seed words" 1).publicKey ≠
      (getAccountAtIndex "seed words" 2).publicKey := by
  constructor
  · rfl
  · decide

end TronLink
